import Mathlib

/-!
# DDF output stream

A shallow embedding of `src/ddf/ddf_outputstream.cpp`, the wire-format encoder of the
DDF serialization library, together with theorems about the bytes it hands to its sink.

Conventions of the embedding

* `uint8_t`, `uint32_t`, `uint64_t` values are natural numbers; a conversion to one of these
  types is an explicit reduction modulo `2^8`, `2^32`, `2^64`.  `int32_t`, `int64_t` and `int`
  values are integers.
* A `const void*` buffer is the list of bytes stored at the pointer.
* The save callback may change the destination it writes to.  The destination is a value of
  an arbitrary type `σ` that is passed into and returned from every operation.
* The scratch arrays of the varint writers are lists of fixed length whose element writes are
  bounds-checked: a write past the end makes the operation return `none`.
-/

namespace DDF

/-! ## Machine integers -/

/-- Conversion to `uint8_t`. -/
def uint8 (n : Nat) : Nat := n % 2 ^ 8

/-- Conversion to `uint32_t`. -/
def uint32 (n : Nat) : Nat := n % 2 ^ 32

/-- Conversion to `uint64_t`. -/
def uint64 (n : Nat) : Nat := n % 2 ^ 64

/-- Conversion of a signed value to `uint32_t` (two's complement). -/
def int_to_uint32 (v : Int) : Nat := (v % 2 ^ 32).toNat

/-- Conversion of a signed value to `uint64_t` (two's complement). -/
def int_to_uint64 (v : Int) : Nat := (v % 2 ^ 64).toNat

/-- Conversion of a `uint32_t` to `int` (32 bits, two's complement). -/
def uint32_to_int (n : Nat) : Int :=
  if n % 2 ^ 32 < 2 ^ 31 then ((n % 2 ^ 32 : Nat) : Int) else ((n % 2 ^ 32 : Nat) : Int) - 2 ^ 32

/-- The C library function `strlen`: the number of bytes in front of the first zero byte.
The argument lists the bytes of the character array without its final terminator, so the
scan stops at the first zero byte inside the list or else at the terminator behind it. -/
def strlen (str : List Nat) : Nat := (str.takeWhile (fun c => c != 0)).length

/-! ## The stream -/

/-- The class `DDFOutputStream`: a save callback `m_SaveFunction(context, buffer, length)`
returning `bool`, and the opaque context handed to it on every call.  `κ` is the type of the
context handle and `σ` the type of the destination the callback writes to. -/
structure DDFOutputStream (κ σ : Type) where
  m_SaveFunction : κ → List Nat → Int → σ → Bool × σ
  m_Context : κ

/-- The byte span `[buffer, buffer + length)` that a save callback is entitled to read. -/
def sinkBytes (buffer : List Nat) (length : Int) : List Nat := buffer.take length.toNat

/-- The loop of `WriteVarInt32` and `WriteVarInt64` (lines 34-38 and 47-51, which are the same
text): `while (value > 0x7F) { bytes[size++] = (uint8_t(value) & 0x7F) | 0x80; value >>= 7; }`.
Returns the values of `value`, `bytes` and `size` when the loop is left, or `none` when an
element is written at an index outside of `bytes`. -/
def varintLoop (value : Nat) (bytes : List Nat) (size : Nat) : Option (Nat × List Nat × Nat) :=
  if value > 0x7F then
    if size < bytes.length then
      varintLoop (value >>> 7) (bytes.set size ((uint8 value &&& 0x7F) ||| 0x80)) (size + 1)
    else none
  else some (value, bytes, size)
termination_by value
decreasing_by
  simp only [Nat.shiftRight_eq_div_pow]
  omega

/-- The scratch array and the size computed by a varint writer whose array `bytes` has
`capacity` elements (lines 32-39 with capacity 5, lines 45-52 with capacity 10): the loop,
then `bytes[size++] = uint8_t(value) & 0x7F`.  The array elements start out as 0. -/
def varintScratch (capacity : Nat) (value : Nat) : Option (List Nat × Nat) :=
  match varintLoop value (List.replicate capacity 0) 0 with
  | none => none
  | some (value, bytes, size) =>
    if size < bytes.length then some (bytes.set size (uint8 value &&& 0x7F), size + 1)
    else none

namespace DDFOutputStream

variable {κ σ : Type}

/-- The constructor `DDFOutputStream(save_function, context)`. -/
def new (save_function : κ → List Nat → Int → σ → Bool × σ) (context : κ) :
    DDFOutputStream κ σ :=
  { m_SaveFunction := save_function, m_Context := context }

/-- The method `Write(buffer, length)`. -/
def Write (S : DDFOutputStream κ σ) (buffer : List Nat) (length : Int) (w : σ) : Bool × σ :=
  S.m_SaveFunction S.m_Context buffer length w

/-- The method `WriteVarInt32(value)`, `value` a `uint32_t`. -/
def WriteVarInt32 (S : DDFOutputStream κ σ) (value : Nat) (w : σ) : Option (Bool × σ) :=
  match varintScratch 5 value with
  | none => none
  | some (bytes, size) => some (S.Write bytes size w)

/-- The method `WriteVarInt64(value)`, `value` a `uint64_t`. -/
def WriteVarInt64 (S : DDFOutputStream κ σ) (value : Nat) (w : σ) : Option (Bool × σ) :=
  match varintScratch 10 value with
  | none => none
  | some (bytes, size) => some (S.Write bytes size w)

/-- The method `WriteTag(number, type)`: `number` is a `uint32_t` and `type` the integer value
of the `DDFWireType` enumerator.  The tag is computed in `uint32_t`. -/
def WriteTag (S : DDFOutputStream κ σ) (number : Nat) (type : Nat) (w : σ) :
    Option (Bool × σ) :=
  let tag := uint32 (number <<< 3)
  let tag := uint32 (tag ||| type)
  S.WriteVarInt32 tag w

/-- The method `WriteVarInt32SignExtended(value)`, `value` an `int32_t`. -/
def WriteVarInt32SignExtended (S : DDFOutputStream κ σ) (value : Int) (w : σ) :
    Option (Bool × σ) :=
  if value < 0 then S.WriteVarInt64 (int_to_uint64 value) w
  else S.WriteVarInt32 (int_to_uint32 value) w

/-- The method `WriteFixed32(value)`, `value` a `uint32_t`; `sizeof(buf)` is 4. -/
def WriteFixed32 (S : DDFOutputStream κ σ) (value : Nat) (w : σ) : Bool × σ :=
  let buf := [uint8 ((value >>> 0) &&& 0xff), uint8 ((value >>> 8) &&& 0xff),
    uint8 ((value >>> 16) &&& 0xff), uint8 ((value >>> 24) &&& 0xff)]
  S.Write buf 4 w

/-- The method `WriteFixed64(value)`, `value` a `uint64_t`; `sizeof(buf)` is 8. -/
def WriteFixed64 (S : DDFOutputStream κ σ) (value : Nat) (w : σ) : Bool × σ :=
  let buf := [uint8 ((value >>> 0) &&& 0xff), uint8 ((value >>> 8) &&& 0xff),
    uint8 ((value >>> 16) &&& 0xff), uint8 ((value >>> 24) &&& 0xff),
    uint8 ((value >>> 32) &&& 0xff), uint8 ((value >>> 40) &&& 0xff),
    uint8 ((value >>> 48) &&& 0xff), uint8 ((value >>> 56) &&& 0xff)]
  S.Write buf 8 w

/-- The method `WriteFloat(value)`.  A `float` is given by the 32-bit pattern of its storage,
which is what reading the union member `i` after writing the member `v` yields. -/
def WriteFloat (S : DDFOutputStream κ σ) (value : Nat) (w : σ) : Bool × σ :=
  S.WriteFixed32 value w

/-- The method `WriteDouble(value)`.  A `double` is given by the 64-bit pattern of its
storage. -/
def WriteDouble (S : DDFOutputStream κ σ) (value : Nat) (w : σ) : Bool × σ :=
  S.WriteFixed64 value w

/-- The method `WriteInt32(value)`, `value` an `int32_t` that is converted to the `uint32_t`
parameter of `WriteVarInt32`. -/
def WriteInt32 (S : DDFOutputStream κ σ) (value : Int) (w : σ) : Option (Bool × σ) :=
  S.WriteVarInt32 (int_to_uint32 value) w

/-- The method `WriteUInt32(value)`. -/
def WriteUInt32 (S : DDFOutputStream κ σ) (value : Nat) (w : σ) : Option (Bool × σ) :=
  S.WriteVarInt32 value w

/-- The method `WriteInt64(value)`, `value` an `int64_t` that is converted to the `uint64_t`
parameter of `WriteVarInt64`. -/
def WriteInt64 (S : DDFOutputStream κ σ) (value : Int) (w : σ) : Option (Bool × σ) :=
  S.WriteVarInt64 (int_to_uint64 value) w

/-- The method `WriteUInt64(value)`. -/
def WriteUInt64 (S : DDFOutputStream κ σ) (value : Nat) (w : σ) : Option (Bool × σ) :=
  S.WriteVarInt64 value w

/-- The method `WriteString(str)`: `uint32_t len = strlen(str);
return WriteVarInt32(len) && Write(str, len);`.  The second operand of `&&` is evaluated only
when the first one is true; `len` is converted to the `int` parameter of `Write`. -/
def WriteString (S : DDFOutputStream κ σ) (str : List Nat) (w : σ) : Option (Bool × σ) :=
  let len := uint32 (strlen str)
  match S.WriteVarInt32 len w with
  | none => none
  | some (true, w1) => some (S.Write str (uint32_to_int len) w1)
  | some (false, w1) => some (false, w1)

/-- A stream that passes every call on to the save callback of `S` and keeps, next to the
destination of `S`, the list of the calls made so far (buffer and length, oldest first). -/
def logged (S : DDFOutputStream κ σ) : DDFOutputStream κ (σ × List (List Nat × Int)) :=
  { m_SaveFunction := fun c buffer length st =>
      ((S.m_SaveFunction c buffer length st.1).1,
        ((S.m_SaveFunction c buffer length st.1).2, st.2 ++ [(buffer, length)]))
    m_Context := S.m_Context }

end DDFOutputStream

/-- A destination in memory: the save callback appends the span it is given to the bytes
received so far and reports success. -/
def memorySink : DDFOutputStream Unit (List Nat) :=
  DDFOutputStream.new (fun _ buffer length received => (true, received ++ sinkBytes buffer length)) ()

/-- A destination in memory that accepts a limited number of calls: the state is the number of
calls still accepted and the bytes received so far.  An accepted call appends its span to the
bytes received; a rejected call reports failure and leaves the bytes received as they are. -/
def limitedSink : DDFOutputStream Unit (Nat × List Nat) :=
  DDFOutputStream.new (fun _ buffer length st =>
    match st.1 with
    | 0 => (false, st)
    | k + 1 => (true, (k, st.2 ++ sinkBytes buffer length))) ()

/-! ## Sequences of calls -/

/-- A call of one public method of the stream, with its arguments. -/
inductive Call where
  | Write (buffer : List Nat) (length : Int)
  | WriteTag (number : Nat) (type : Nat)
  | WriteVarInt32SignExtended (value : Int)
  | WriteVarInt32 (value : Nat)
  | WriteVarInt64 (value : Nat)
  | WriteFixed32 (value : Nat)
  | WriteFixed64 (value : Nat)
  | WriteFloat (value : Nat)
  | WriteDouble (value : Nat)
  | WriteInt32 (value : Int)
  | WriteUInt32 (value : Nat)
  | WriteInt64 (value : Int)
  | WriteUInt64 (value : Nat)
  | WriteString (str : List Nat)

/-- The arguments of a call are values of the parameter types of the method: `int` and
`int32_t` are 32 bits wide, a float is a 32-bit pattern and a double a 64-bit pattern. -/
def Call.wellTyped : Call → Prop
  | .Write _ length => -2 ^ 31 ≤ length ∧ length < 2 ^ 31
  | .WriteTag number type => number < 2 ^ 32 ∧ type < 2 ^ 32
  | .WriteVarInt32SignExtended value => -2 ^ 31 ≤ value ∧ value < 2 ^ 31
  | .WriteVarInt32 value => value < 2 ^ 32
  | .WriteVarInt64 value => value < 2 ^ 64
  | .WriteFixed32 value => value < 2 ^ 32
  | .WriteFixed64 value => value < 2 ^ 64
  | .WriteFloat value => value < 2 ^ 32
  | .WriteDouble value => value < 2 ^ 64
  | .WriteInt32 value => -2 ^ 31 ≤ value ∧ value < 2 ^ 31
  | .WriteUInt32 value => value < 2 ^ 32
  | .WriteInt64 value => -2 ^ 63 ≤ value ∧ value < 2 ^ 63
  | .WriteUInt64 value => value < 2 ^ 64
  | .WriteString _ => True

instance Call.decidableWellTyped : DecidablePred Call.wellTyped := fun c => by
  cases c <;> (dsimp only [Call.wellTyped]; infer_instance)

/-- The call `c` made on the stream `S`. -/
def DDFOutputStream.call {κ σ : Type} (S : DDFOutputStream κ σ) : Call → σ → Option (Bool × σ)
  | .Write buffer length, w => some (S.Write buffer length w)
  | .WriteTag number type, w => S.WriteTag number type w
  | .WriteVarInt32SignExtended value, w => S.WriteVarInt32SignExtended value w
  | .WriteVarInt32 value, w => S.WriteVarInt32 value w
  | .WriteVarInt64 value, w => S.WriteVarInt64 value w
  | .WriteFixed32 value, w => some (S.WriteFixed32 value w)
  | .WriteFixed64 value, w => some (S.WriteFixed64 value w)
  | .WriteFloat value, w => some (S.WriteFloat value w)
  | .WriteDouble value, w => some (S.WriteDouble value w)
  | .WriteInt32 value, w => S.WriteInt32 value w
  | .WriteUInt32 value, w => S.WriteUInt32 value w
  | .WriteInt64 value, w => S.WriteInt64 value w
  | .WriteUInt64 value, w => S.WriteUInt64 value w
  | .WriteString str, w => S.WriteString str w

/-- One call made by a caller that holds the stream object and the destination.  No method
of the class assigns to `m_SaveFunction` or `m_Context` (only the constructor does), so the
object after the call is the object before it. -/
def step {κ σ : Type} (st : DDFOutputStream κ σ × σ) (c : Call) :
    Option (Bool × (DDFOutputStream κ σ × σ)) :=
  match st.1.call c st.2 with
  | none => none
  | some (ok, w) => some (ok, (st.1, w))

/-- A sequence of calls made one after the other on one stream, whatever the calls return:
the results in call order, and the stream object and the destination at the end. -/
def run {κ σ : Type} (st : DDFOutputStream κ σ × σ) :
    List Call → Option (List Bool × (DDFOutputStream κ σ × σ))
  | [] => some ([], st)
  | c :: cs =>
    match step st c with
    | none => none
    | some (ok, st1) =>
      match run st1 cs with
      | none => none
      | some (oks, st2) => some (ok :: oks, st2)

/-- The bytes a call emits on its own: what the memory sink holds after the call was made on
a stream whose destination was empty. -/
def Call.emitted (c : Call) : List Nat :=
  match memorySink.call c [] with
  | some (_, received) => received
  | none => []

/-- The calls of the save callback a call makes on its own, on a sink that accepts them: the
log of the logging stream over the memory sink, started with an empty log. -/
def Call.sinkCalls (c : Call) : List (List Nat × Int) :=
  match (DDFOutputStream.logged memorySink).call c ([], []) with
  | some (_, st) => st.2
  | none => []

/-! ## Decoders, written from the specification -/

/-- The standard base-128 varint decoder: the sum over `i` of `(byte_i & 0x7F) << (7*i)`,
stopping at the first byte whose high bit is clear.  `shift` is `7*i` and `acc` the sum so
far.  Returns the value and the bytes that were not consumed, or `none` when the input ends
before a byte with a clear high bit is found. -/
def decode_varint_from (shift acc : Nat) : List Nat → Option (Nat × List Nat)
  | [] => none
  | b :: rest =>
    if b &&& 0x80 = 0 then some (acc + ((b &&& 0x7F) <<< shift), rest)
    else decode_varint_from (shift + 7) (acc + ((b &&& 0x7F) <<< shift)) rest

/-- The varint decoder started at the first byte. -/
def decode_varint (bytes : List Nat) : Option (Nat × List Nat) := decode_varint_from 0 0 bytes

/-- The decoder of a length-delimited payload: read the varint length, then that many bytes.
Returns the payload and the bytes that were not consumed. -/
def decode_string (bytes : List Nat) : Option (List Nat × List Nat) :=
  match decode_varint bytes with
  | none => none
  | some (len, rest) => if len ≤ rest.length then some (rest.take len, rest.drop len) else none

/-- The number of bits needed to write `v`: the position of its highest set bit, counted
from 1, and 0 for `v = 0`. -/
def bits_needed (v : Nat) : Nat := if v = 0 then 0 else Nat.log2 v + 1

/-- The layout of a varint `b_0 .. b_{k-1}` of the value `v`, `k ≥ 1`: byte `i` is a byte,
it carries the `i`-th least significant 7-bit group of `v` in its low 7 bits, every byte
except the last has the bit `0x80` set and the last byte has it clear. -/
def VarintLayout (v : Nat) (b : List Nat) : Prop :=
  1 ≤ b.length ∧ ∀ (i : Nat) (hi : i < b.length),
    b[i] < 256 ∧ b[i] &&& 0x7F = (v >>> (7 * i)) &&& 0x7F ∧
    (i + 1 < b.length → b[i] &&& 0x80 = 0x80) ∧ (i + 1 = b.length → b[i] &&& 0x80 = 0)

/-- A signed 32-bit value widened to 64-bit two's complement, read as an unsigned 64-bit
value: `v` for `v ≥ 0` and `v + 2^64` for `v < 0`. -/
def widen64 (v : Int) : Nat := if 0 ≤ v then v.toNat else (v + 2 ^ 64).toNat

/-- A 64-bit pattern reinterpreted as a signed 64-bit value (two's complement). -/
def reinterpret_int64 (n : Nat) : Int := if n < 2 ^ 63 then (n : Int) else (n : Int) - 2 ^ 64

/-! ## Auxiliary definitions of the proofs -/

/-- The byte sequence of a varint, as a list: one byte `v % 128 + 128` for every 7-bit group
that has a higher group behind it, then the last group.  The scratch arrays of the writers
are shown to hold exactly this list. -/
def varintBytes (v : Nat) : List Nat :=
  if 0x7F < v then (v % 128 + 128) :: varintBytes (v / 128) else [v]
termination_by v
decreasing_by omega

/-- The statement `bytes[size++] = uint8_t(value) & 0x7F` behind the loop, as a function of
the loop result; `varintScratch` is this function applied to `varintLoop`. -/
def varintFinish : Option (Nat × List Nat × Nat) → Option (List Nat × Nat)
  | none => none
  | some (value, bytes, size) =>
    if size < bytes.length then some (bytes.set size (uint8 value &&& 0x7F), size + 1)
    else none

/-- The buffer and the size that a varint writer with an array of `capacity` elements hands to
the save callback, written with `varintBytes`. -/
def varintCall (capacity v : Nat) : List Nat × Int :=
  (varintBytes v ++ List.replicate (capacity - (varintBytes v).length) 0,
    ((varintBytes v).length : Int))

/-- The calls of the save callback that a call of a method makes when every one of them is
accepted, in order. -/
def Call.writes : Call → List (List Nat × Int)
  | .Write buffer length => [(buffer, length)]
  | .WriteTag number type => [varintCall 5 (uint32 (uint32 (number <<< 3) ||| type))]
  | .WriteVarInt32SignExtended value =>
    if value < 0 then [varintCall 10 (int_to_uint64 value)]
    else [varintCall 5 (int_to_uint32 value)]
  | .WriteVarInt32 value => [varintCall 5 value]
  | .WriteVarInt64 value => [varintCall 10 value]
  | .WriteFixed32 value =>
    [([(value >>> (8 * 0)) &&& 0xFF, (value >>> (8 * 1)) &&& 0xFF, (value >>> (8 * 2)) &&& 0xFF,
      (value >>> (8 * 3)) &&& 0xFF], 4)]
  | .WriteFixed64 value =>
    [([(value >>> (8 * 0)) &&& 0xFF, (value >>> (8 * 1)) &&& 0xFF, (value >>> (8 * 2)) &&& 0xFF,
      (value >>> (8 * 3)) &&& 0xFF, (value >>> (8 * 4)) &&& 0xFF, (value >>> (8 * 5)) &&& 0xFF,
      (value >>> (8 * 6)) &&& 0xFF, (value >>> (8 * 7)) &&& 0xFF], 8)]
  | .WriteFloat value =>
    [([(value >>> (8 * 0)) &&& 0xFF, (value >>> (8 * 1)) &&& 0xFF, (value >>> (8 * 2)) &&& 0xFF,
      (value >>> (8 * 3)) &&& 0xFF], 4)]
  | .WriteDouble value =>
    [([(value >>> (8 * 0)) &&& 0xFF, (value >>> (8 * 1)) &&& 0xFF, (value >>> (8 * 2)) &&& 0xFF,
      (value >>> (8 * 3)) &&& 0xFF, (value >>> (8 * 4)) &&& 0xFF, (value >>> (8 * 5)) &&& 0xFF,
      (value >>> (8 * 6)) &&& 0xFF, (value >>> (8 * 7)) &&& 0xFF], 8)]
  | .WriteInt32 value => [varintCall 5 (int_to_uint32 value)]
  | .WriteUInt32 value => [varintCall 5 value]
  | .WriteInt64 value => [varintCall 10 (int_to_uint64 value)]
  | .WriteUInt64 value => [varintCall 10 value]
  | .WriteString str =>
    [varintCall 5 (uint32 (strlen str)), (str, uint32_to_int (uint32 (strlen str)))]

/-- The destination after the save callback of `S` was called with each entry of a list of
buffers and lengths, in order. -/
def feed {κ σ : Type} (S : DDFOutputStream κ σ) : List (List Nat × Int) → σ → σ
  | [], w => w
  | p :: ps, w => feed S ps (S.m_SaveFunction S.m_Context p.1 p.2 w).2

/-! ## Lemmas on the varint writers -/

theorem varintBytes_small {v : Nat} (h : v ≤ 127) : varintBytes v = [v] := by
  rw [varintBytes]; simp; omega

theorem varintBytes_big {v : Nat} (h : 127 < v) :
    varintBytes v = (v % 128 + 128) :: varintBytes (v / 128) := by
  rw [varintBytes]; simp [h]

theorem low7_or (y : Nat) (h : y < 128) : y ||| 128 = y + 128 := by
  revert y; decide

theorem low7_and (v : Nat) : uint8 v &&& 0x7F = v % 128 := by
  have h := Nat.and_pow_two_sub_one_eq_mod (uint8 v) 7
  norm_num at h
  rw [h, uint8]
  omega

theorem varintScratch_eq (capacity v : Nat) :
    varintScratch capacity v = varintFinish (varintLoop v (List.replicate capacity 0) 0) := by
  rfl

/-- The loop followed by the last store writes `varintBytes v` into the array from index
`size` on, when the array has room for it. -/
theorem varintFinish_loop (v : Nat) : ∀ (bytes : List Nat) (size : Nat),
    size + (varintBytes v).length ≤ bytes.length →
    varintFinish (varintLoop v bytes size) =
      some (bytes.take size ++ varintBytes v ++ bytes.drop (size + (varintBytes v).length),
        size + (varintBytes v).length) := by
  induction v using Nat.strong_induction_on with
  | _ v ih =>
    intro bytes size h
    by_cases hv : 127 < v
    · rw [varintBytes_big hv] at h ⊢
      simp only [List.length_cons] at h ⊢
      rw [varintLoop]
      have hs : size < bytes.length := by omega
      simp only [hv, gt_iff_lt, if_true, hs, Nat.shiftRight_eq_div_pow]
      have hd : v / 2 ^ 7 = v / 128 := by norm_num
      rw [hd, low7_and, low7_or _ (Nat.mod_lt _ (by norm_num))]
      rw [ih (v / 128) (by omega) _ _ (by simp; omega)]
      simp only [List.set_eq_take_append_cons_drop, hs, if_true]
      have hA : (List.take size bytes).length = size := by simp; omega
      generalize List.take size bytes = A at hA ⊢
      subst hA
      have e1 : List.take (A.length + 1) (A ++ (v % 128 + 128) :: List.drop (A.length + 1) bytes)
          = A ++ [v % 128 + 128] := by
        simp [List.take_append_eq_append_take]
      have e2 : List.drop (A.length + 1 + (varintBytes (v / 128)).length)
          (A ++ (v % 128 + 128) :: List.drop (A.length + 1) bytes)
          = List.drop (A.length + ((varintBytes (v / 128)).length + 1)) bytes := by
        have e3 : A.length + 1 + (varintBytes (v / 128)).length
            = A.length + ((varintBytes (v / 128)).length + 1) := by omega
        rw [e3, List.drop_append, List.drop_succ_cons, List.drop_drop]
        congr 1
      rw [e1, e2]
      simp
      omega
    · have hv2 : v ≤ 127 := by omega
      rw [varintBytes_small hv2] at h ⊢
      simp only [List.length_singleton] at h ⊢
      rw [varintLoop]
      have hs : size < bytes.length := by omega
      simp [hv, varintFinish, hs, low7_and, List.set_eq_take_append_cons_drop]
      omega

theorem varintBytes_length_pos (v : Nat) : 1 ≤ (varintBytes v).length := by
  by_cases hv : 127 < v
  · rw [varintBytes_big hv]; simp
  · rw [varintBytes_small (by omega)]; simp

theorem varintBytes_length_le (k : Nat) : ∀ v : Nat, v < 128 ^ (k + 1) →
    (varintBytes v).length ≤ k + 1 := by
  induction k with
  | zero =>
    intro v h
    rw [varintBytes_small (by omega)]; simp
  | succ k ih =>
    intro v h
    by_cases hv : 127 < v
    · rw [varintBytes_big hv]
      have : v / 128 < 128 ^ (k + 1) := by
        rw [Nat.div_lt_iff_lt_mul (by norm_num)]
        calc v < 128 ^ (k + 1 + 1) := h
          _ = 128 ^ (k + 1) * 128 := by ring
      have := ih _ this
      simp only [List.length_cons]
      omega
    · rw [varintBytes_small (by omega)]; simp

theorem varintBytes_length_le_five {v : Nat} (h : v < 2 ^ 32) : (varintBytes v).length ≤ 5 :=
  varintBytes_length_le 4 v (by norm_num at h ⊢; omega)

theorem varintBytes_length_le_ten {v : Nat} (h : v < 2 ^ 64) : (varintBytes v).length ≤ 10 :=
  varintBytes_length_le 9 v (by norm_num at h ⊢; omega)

/-- The scratch array of a writer with enough capacity: the varint bytes, then the untouched
elements; the size is the number of varint bytes. -/
theorem varintScratch_some (capacity v : Nat) (h : (varintBytes v).length ≤ capacity) :
    varintScratch capacity v =
      some (varintBytes v ++ List.replicate (capacity - (varintBytes v).length) 0,
        (varintBytes v).length) := by
  rw [varintScratch_eq, varintFinish_loop v _ 0 (by simpa using h)]
  simp

theorem sinkBytes_append_length (l r : List Nat) :
    sinkBytes (l ++ r) (l.length : Int) = l := by
  simp [sinkBytes]

theorem high_bit_facts : ∀ x < 128,
    (x + 128) &&& 0x80 ≠ 0 ∧ (x + 128) &&& 0x7F = x ∧ x &&& 0x80 = 0 ∧ x &&& 0x7F = x := by
  decide

theorem decode_varint_from_bytes (v : Nat) : ∀ (shift acc : Nat) (rest : List Nat),
    decode_varint_from shift acc (varintBytes v ++ rest) = some (acc + (v <<< shift), rest) := by
  induction v using Nat.strong_induction_on with
  | _ v ih =>
    intro shift acc rest
    by_cases hv : 127 < v
    · rw [varintBytes_big hv]
      obtain ⟨h1, h2, -, -⟩ := high_bit_facts (v % 128) (Nat.mod_lt _ (by norm_num))
      rw [List.cons_append, decode_varint_from]
      simp only [h1, if_false, h2]
      rw [ih (v / 128) (by omega)]
      simp only [Nat.shiftLeft_eq, Option.some.injEq, Prod.mk.injEq, and_true]
      have : 2 ^ (shift + 7) = 2 ^ shift * 128 := by rw [pow_add]; norm_num
      have e : v * 2 ^ shift = (v % 128 + v / 128 * 128) * 2 ^ shift := by
        congr 1
        omega
      rw [this, add_assoc, e]
      ring
    · rw [varintBytes_small (by omega)]
      obtain ⟨-, -, h3, h4⟩ := high_bit_facts v (by omega)
      simp [decode_varint_from, h3, h4]

theorem decode_varint_bytes (v : Nat) (rest : List Nat) :
    decode_varint (varintBytes v ++ rest) = some (v, rest) := by
  rw [decode_varint, decode_varint_from_bytes]
  simp

/-- What `WriteVarInt32` does for a `uint32_t` value, in one equation. -/
theorem WriteVarInt32_eq {κ σ : Type} (S : DDFOutputStream κ σ) (w : σ) {v : Nat}
    (h : v < 2 ^ 32) :
    S.WriteVarInt32 v w = some (S.m_SaveFunction S.m_Context
      (varintBytes v ++ List.replicate (5 - (varintBytes v).length) 0)
      ((varintBytes v).length : Int) w) := by
  simp only [DDFOutputStream.WriteVarInt32,
    varintScratch_some 5 v (varintBytes_length_le_five h), DDFOutputStream.Write]

/-- What `WriteVarInt64` does for a `uint64_t` value, in one equation. -/
theorem WriteVarInt64_eq {κ σ : Type} (S : DDFOutputStream κ σ) (w : σ) {v : Nat}
    (h : v < 2 ^ 64) :
    S.WriteVarInt64 v w = some (S.m_SaveFunction S.m_Context
      (varintBytes v ++ List.replicate (10 - (varintBytes v).length) 0)
      ((varintBytes v).length : Int) w) := by
  simp only [DDFOutputStream.WriteVarInt64,
    varintScratch_some 10 v (varintBytes_length_le_ten h), DDFOutputStream.Write]

/-! ## Round trip of the varint writers -/

/-- C1: for every unsigned 32-bit value `v`, `WriteVarInt32(v)` makes one call of the save
callback; the bytes of that call decode back to `v` under the standard base-128 varint
decoder, and the decoder consumes all of them. -/
theorem WriteVarInt32_roundtrip (v : Nat) (hv : v < 2 ^ 32) :
    ∃ (bytes : List Nat) (size : Nat), varintScratch 5 v = some (bytes, size) ∧
      (∀ (κ σ : Type) (S : DDFOutputStream κ σ) (w : σ),
        S.WriteVarInt32 v w = some (S.m_SaveFunction S.m_Context bytes size w)) ∧
      decode_varint (sinkBytes bytes size) = some (v, []) := by
  refine ⟨_, _, varintScratch_some 5 v (varintBytes_length_le_five hv), ?_, ?_⟩
  · intro κ σ S w
    exact WriteVarInt32_eq S w hv
  · rw [sinkBytes_append_length]
    simpa using decode_varint_bytes v []

theorem WriteVarInt32_roundtrip_witness :
    (300 : Nat) < 2 ^ 32 ∧
    ∃ (bytes : List Nat) (size : Nat), varintScratch 5 300 = some (bytes, size) ∧
      (∀ (κ σ : Type) (S : DDFOutputStream κ σ) (w : σ),
        S.WriteVarInt32 300 w = some (S.m_SaveFunction S.m_Context bytes size w)) ∧
      decode_varint (sinkBytes bytes size) = some (300, []) :=
  ⟨by decide, WriteVarInt32_roundtrip 300 (by decide)⟩

/-- C2: for every unsigned 64-bit value `v`, `WriteVarInt64(v)` makes one call of the save
callback; the bytes of that call decode back to `v` under the standard base-128 varint
decoder, and their number is at least 1 and at most 10. -/
theorem WriteVarInt64_roundtrip (v : Nat) (hv : v < 2 ^ 64) :
    ∃ (bytes : List Nat) (size : Nat), varintScratch 10 v = some (bytes, size) ∧
      (∀ (κ σ : Type) (S : DDFOutputStream κ σ) (w : σ),
        S.WriteVarInt64 v w = some (S.m_SaveFunction S.m_Context bytes size w)) ∧
      decode_varint (sinkBytes bytes size) = some (v, []) ∧
      (sinkBytes bytes size).length = size ∧ 1 ≤ size ∧ size ≤ 10 := by
  refine ⟨_, _, varintScratch_some 10 v (varintBytes_length_le_ten hv), ?_, ?_, ?_,
    varintBytes_length_pos v, varintBytes_length_le_ten hv⟩
  · intro κ σ S w
    exact WriteVarInt64_eq S w hv
  · rw [sinkBytes_append_length]
    simpa using decode_varint_bytes v []
  · rw [sinkBytes_append_length]

theorem WriteVarInt64_roundtrip_witness :
    (18446744073709551615 : Nat) < 2 ^ 64 ∧
    ∃ (bytes : List Nat) (size : Nat), varintScratch 10 18446744073709551615 = some (bytes, size) ∧
      (∀ (κ σ : Type) (S : DDFOutputStream κ σ) (w : σ),
        S.WriteVarInt64 18446744073709551615 w
          = some (S.m_SaveFunction S.m_Context bytes size w)) ∧
      decode_varint (sinkBytes bytes size) = some (18446744073709551615, []) ∧
      (sinkBytes bytes size).length = size ∧ 1 ≤ size ∧ size ≤ 10 :=
  ⟨by decide, WriteVarInt64_roundtrip 18446744073709551615 (by decide)⟩

/-! ## Layout and length of a varint -/

theorem and_127_eq_mod (x : Nat) : x &&& 0x7F = x % 128 := by
  have h := Nat.and_pow_two_sub_one_eq_mod x 7
  norm_num at h
  exact h

theorem varintBytes_layout (v : Nat) : ∀ (i : Nat) (hi : i < (varintBytes v).length),
    (varintBytes v)[i] < 256 ∧
    (varintBytes v)[i] &&& 0x7F = (v >>> (7 * i)) &&& 0x7F ∧
    (i + 1 < (varintBytes v).length → (varintBytes v)[i] &&& 0x80 = 0x80) ∧
    (i + 1 = (varintBytes v).length → (varintBytes v)[i] &&& 0x80 = 0) := by
  induction v using Nat.strong_induction_on with
  | _ v ih =>
    intro i hi
    by_cases hv : 127 < v
    · have hb := varintBytes_big hv
      have hp := varintBytes_length_pos (v / 128)
      obtain ⟨h1, h2, -, -⟩ := high_bit_facts (v % 128) (Nat.mod_lt _ (by norm_num))
      simp only [hb, List.length_cons] at hi ⊢
      cases i with
      | zero =>
        simp only [List.getElem_cons_zero, Nat.mul_zero, Nat.shiftRight_zero]
        refine ⟨by omega, ?_, ?_, ?_⟩
        · rw [h2, and_127_eq_mod]
        · intro _
          have : ∀ x < 128, (x + 128) &&& 0x80 = 0x80 := by decide
          exact this _ (Nat.mod_lt _ (by norm_num))
        · intro h; omega
      | succ j =>
        simp only [List.getElem_cons_succ]
        obtain ⟨g1, g2, g3, g4⟩ := ih (v / 128) (by omega) j (by omega)
        refine ⟨g1, ?_, ?_, ?_⟩
        · rw [g2]
          have : 7 * (j + 1) = 7 + 7 * j := by ring
          rw [this, Nat.shiftRight_add, Nat.shiftRight_eq_div_pow v 7]
        · intro h; exact g3 (by omega)
        · intro h; exact g4 (by omega)
    · have hb := varintBytes_small (show v ≤ 127 by omega)
      obtain ⟨-, -, h3, h4⟩ := high_bit_facts v (by omega)
      simp only [hb, List.length_singleton] at hi ⊢
      have : i = 0 := by omega
      subst this
      simp only [List.getElem_cons_zero, Nat.mul_zero, Nat.shiftRight_zero]
      exact ⟨by omega, trivial, by intro h; omega, fun _ => h3⟩

theorem varintBytes_300 : varintBytes 300 = [0xAC, 0x02] := by
  rw [varintBytes_big (by decide : 127 < 300), varintBytes_small (by decide : 300 / 128 ≤ 127)]

/-- C3: for every 64-bit value `v`, `WriteVarInt64(v)` hands the save callback bytes
`b_0 .. b_{k-1}`, `k ≥ 1`, where byte `i` carries `(v >> 7*i) & 0x7F` in its low 7 bits, every
byte except the last has the bit `0x80` set and the last has it clear; `WriteVarInt32(v)`
does the same for every 32-bit value `v`; and `WriteVarInt32(300)` emits `[0xAC, 0x02]`. -/
theorem varint_byte_layout (v : Nat) (hv : v < 2 ^ 64) :
    (∃ (bytes : List Nat) (size : Nat), varintScratch 10 v = some (bytes, size) ∧
      (∀ (κ σ : Type) (S : DDFOutputStream κ σ) (w : σ),
        S.WriteVarInt64 v w = some (S.m_SaveFunction S.m_Context bytes size w)) ∧
      VarintLayout v (sinkBytes bytes size)) ∧
    (v < 2 ^ 32 →
      ∃ (bytes : List Nat) (size : Nat), varintScratch 5 v = some (bytes, size) ∧
      (∀ (κ σ : Type) (S : DDFOutputStream κ σ) (w : σ),
        S.WriteVarInt32 v w = some (S.m_SaveFunction S.m_Context bytes size w)) ∧
      VarintLayout v (sinkBytes bytes size)) ∧
    (∀ (κ σ : Type) (S : DDFOutputStream κ σ) (w : σ),
      S.WriteVarInt32 300 w = some (S.m_SaveFunction S.m_Context [0xAC, 0x02, 0, 0, 0] 2 w)) ∧
    sinkBytes [0xAC, 0x02, 0, 0, 0] 2 = [0xAC, 0x02] := by
  have hl : VarintLayout v (varintBytes v) := ⟨varintBytes_length_pos v, varintBytes_layout v⟩
  refine ⟨⟨_, _, varintScratch_some 10 v (varintBytes_length_le_ten hv), ?_, ?_⟩, ?_, ?_, ?_⟩
  · intro κ σ S w
    exact WriteVarInt64_eq S w hv
  · rw [sinkBytes_append_length]
    exact hl
  · intro hv32
    refine ⟨_, _, varintScratch_some 5 v (varintBytes_length_le_five hv32), ?_, ?_⟩
    · intro κ σ S w
      exact WriteVarInt32_eq S w hv32
    · rw [sinkBytes_append_length]
      exact hl
  · intro κ σ S w
    rw [WriteVarInt32_eq S w (by decide : 300 < 2 ^ 32), varintBytes_300]
    rfl
  · rfl

theorem varint_byte_layout_witness :
    (300 : Nat) < 2 ^ 64 ∧ (300 : Nat) < 2 ^ 32 ∧
    (∃ (bytes : List Nat) (size : Nat), varintScratch 10 300 = some (bytes, size) ∧
      (∀ (κ σ : Type) (S : DDFOutputStream κ σ) (w : σ),
        S.WriteVarInt64 300 w = some (S.m_SaveFunction S.m_Context bytes size w)) ∧
      VarintLayout 300 (sinkBytes bytes size)) ∧
    (∃ (bytes : List Nat) (size : Nat), varintScratch 5 300 = some (bytes, size) ∧
      (∀ (κ σ : Type) (S : DDFOutputStream κ σ) (w : σ),
        S.WriteVarInt32 300 w = some (S.m_SaveFunction S.m_Context bytes size w)) ∧
      VarintLayout 300 (sinkBytes bytes size)) :=
  ⟨by decide, by decide, (varint_byte_layout 300 (by decide)).1,
    (varint_byte_layout 300 (by decide)).2.1 (by decide)⟩

theorem log2_div_128 {v : Nat} (hv : 127 < v) : Nat.log2 v = Nat.log2 (v / 128) + 7 := by
  have hm : v / 128 ≠ 0 := by omega
  have hv0 : v ≠ 0 := by omega
  have h1 := Nat.log2_self_le hm
  have h2 := @Nat.lt_log2_self (v / 128)
  generalize Nat.log2 (v / 128) = k at h1 h2
  have e1 : 2 ^ (k + 7) = 2 ^ k * 128 := by rw [pow_add]; norm_num
  have e2 : 2 ^ (k + 7 + 1) = 2 ^ (k + 1) * 128 := by rw [pow_add, pow_add, pow_add]; norm_num; ring
  have a1 : k + 7 ≤ Nat.log2 v := by
    rw [Nat.le_log2 hv0, e1]
    omega
  have a2 : Nat.log2 v < k + 7 + 1 := by
    rw [Nat.log2_lt hv0, e2]
    omega
  omega

theorem varintBytes_length_bits (v : Nat) (h0 : v ≠ 0) :
    (varintBytes v).length = (bits_needed v + 6) / 7 := by
  induction v using Nat.strong_induction_on with
  | _ v ih =>
    by_cases hv : 127 < v
    · rw [varintBytes_big hv, List.length_cons, ih (v / 128) (by omega) (by omega)]
      simp only [bits_needed, h0, if_false, (show v / 128 ≠ 0 by omega), log2_div_128 hv]
      omega
    · rw [varintBytes_small (by omega)]
      have : Nat.log2 v < 7 := by
        rw [Nat.log2_lt h0]
        norm_num
        omega
      simp only [bits_needed, h0, if_false, List.length_singleton]
      omega

theorem varintBytes_getLast (v : Nat) (h0 : v ≠ 0) : (varintBytes v).getLast? ≠ some 0 := by
  induction v using Nat.strong_induction_on with
  | _ v ih =>
    by_cases hv : 127 < v
    · have := ih (v / 128) (by omega) (by omega)
      have hp := varintBytes_length_pos (v / 128)
      rw [varintBytes_big hv]
      cases hl : varintBytes (v / 128) with
      | nil => rw [hl] at hp; simp at hp
      | cons a t =>
        rw [hl] at this
        rw [List.getLast?_cons_cons]
        exact this
    · rw [varintBytes_small (by omega)]
      simpa using h0

/-- C4: for every unsigned 32-bit value `v`, the number of bytes `WriteVarInt32(v)` hands to
the save callback is `ceil(bits_needed(v) / 7)`, and 1 for `v = 0`; it is at most 5; and for
`v ≠ 0` the last byte is not zero, so there is no redundant trailing zero group. -/
theorem WriteVarInt32_length (v : Nat) (hv : v < 2 ^ 32) :
    ∃ (bytes : List Nat) (size : Nat), varintScratch 5 v = some (bytes, size) ∧
      (∀ (κ σ : Type) (S : DDFOutputStream κ σ) (w : σ),
        S.WriteVarInt32 v w = some (S.m_SaveFunction S.m_Context bytes size w)) ∧
      (sinkBytes bytes size).length = size ∧
      size = (if v = 0 then 1 else (bits_needed v + 6) / 7) ∧
      size ≤ 5 ∧
      (v ≠ 0 → (sinkBytes bytes size).getLast? ≠ some 0) := by
  refine ⟨_, _, varintScratch_some 5 v (varintBytes_length_le_five hv), ?_, ?_, ?_,
    varintBytes_length_le_five hv, ?_⟩
  · intro κ σ S w
    exact WriteVarInt32_eq S w hv
  · rw [sinkBytes_append_length]
  · by_cases h0 : v = 0
    · subst h0
      rw [varintBytes_small (by omega)]
      simp
    · rw [if_neg h0]
      exact varintBytes_length_bits v h0
  · intro h0
    rw [sinkBytes_append_length]
    exact varintBytes_getLast v h0

theorem WriteVarInt32_length_witness :
    (300 : Nat) < 2 ^ 32 ∧
    ∃ (bytes : List Nat) (size : Nat), varintScratch 5 300 = some (bytes, size) ∧
      (∀ (κ σ : Type) (S : DDFOutputStream κ σ) (w : σ),
        S.WriteVarInt32 300 w = some (S.m_SaveFunction S.m_Context bytes size w)) ∧
      (sinkBytes bytes size).length = size ∧
      size = (if (300 : Nat) = 0 then 1 else (bits_needed 300 + 6) / 7) ∧
      size ≤ 5 ∧
      ((300 : Nat) ≠ 0 → (sinkBytes bytes size).getLast? ≠ some 0) :=
  ⟨by decide, WriteVarInt32_length 300 (by decide)⟩

/-! ## Fixed-width writers -/

theorem and_255_eq_mod (x : Nat) : x &&& 0xff = x % 256 := by
  have h := Nat.and_pow_two_sub_one_eq_mod x 8
  norm_num at h
  exact h

theorem uint8_and_255 (x : Nat) : uint8 (x &&& 0xff) = x &&& 0xff := by
  rw [and_255_eq_mod, uint8]
  omega

/-- C5: for every unsigned 32-bit value `v`, `WriteFixed32(v)` hands the save callback a
buffer of exactly 4 bytes `b_i = (v >> 8*i) & 0xFF`, least significant byte first, with
`b0 + b1*2^8 + b2*2^16 + b3*2^24 = v`; `WriteFixed32(1)` emits `[0x01, 0x00, 0x00, 0x00]`. -/
theorem WriteFixed32_little_endian (v : Nat) (hv : v < 2 ^ 32) :
    (∀ (κ σ : Type) (S : DDFOutputStream κ σ) (w : σ),
      S.WriteFixed32 v w = S.m_SaveFunction S.m_Context
        [(v >>> (8 * 0)) &&& 0xFF, (v >>> (8 * 1)) &&& 0xFF, (v >>> (8 * 2)) &&& 0xFF,
          (v >>> (8 * 3)) &&& 0xFF] 4 w) ∧
    sinkBytes [(v >>> (8 * 0)) &&& 0xFF, (v >>> (8 * 1)) &&& 0xFF, (v >>> (8 * 2)) &&& 0xFF,
        (v >>> (8 * 3)) &&& 0xFF] 4 =
      [(v >>> (8 * 0)) &&& 0xFF, (v >>> (8 * 1)) &&& 0xFF, (v >>> (8 * 2)) &&& 0xFF,
        (v >>> (8 * 3)) &&& 0xFF] ∧
    ((v >>> (8 * 0)) &&& 0xFF) + ((v >>> (8 * 1)) &&& 0xFF) * 2 ^ 8
      + ((v >>> (8 * 2)) &&& 0xFF) * 2 ^ 16 + ((v >>> (8 * 3)) &&& 0xFF) * 2 ^ 24 = v ∧
    (∀ (κ σ : Type) (S : DDFOutputStream κ σ) (w : σ),
      S.WriteFixed32 1 w = S.m_SaveFunction S.m_Context [0x01, 0x00, 0x00, 0x00] 4 w) := by
  refine ⟨?_, rfl, ?_, ?_⟩
  · intro κ σ S w
    simp only [DDFOutputStream.WriteFixed32, DDFOutputStream.Write, uint8_and_255,
      Nat.mul_zero, Nat.mul_one]
  · simp only [and_255_eq_mod, Nat.shiftRight_eq_div_pow]
    norm_num at hv ⊢
    omega
  · intro κ σ S w
    simp only [DDFOutputStream.WriteFixed32, DDFOutputStream.Write, uint8_and_255]
    rfl

theorem WriteFixed32_little_endian_witness :
    (305419896 : Nat) < 2 ^ 32 ∧
    (∀ (κ σ : Type) (S : DDFOutputStream κ σ) (w : σ),
      S.WriteFixed32 305419896 w = S.m_SaveFunction S.m_Context [0x78, 0x56, 0x34, 0x12] 4 w) :=
  ⟨by decide, (WriteFixed32_little_endian 305419896 (by decide)).1⟩

/-- C6: for every unsigned 64-bit value `v`, `WriteFixed64(v)` hands the save callback a
buffer of exactly 8 bytes `b_i = (v >> 8*i) & 0xFF`, least significant byte first, and the
little-endian sum of `b_i * 2^(8*i)` is `v`. -/
theorem WriteFixed64_little_endian (v : Nat) (hv : v < 2 ^ 64) :
    (∀ (κ σ : Type) (S : DDFOutputStream κ σ) (w : σ),
      S.WriteFixed64 v w = S.m_SaveFunction S.m_Context
        [(v >>> (8 * 0)) &&& 0xFF, (v >>> (8 * 1)) &&& 0xFF, (v >>> (8 * 2)) &&& 0xFF,
          (v >>> (8 * 3)) &&& 0xFF, (v >>> (8 * 4)) &&& 0xFF, (v >>> (8 * 5)) &&& 0xFF,
          (v >>> (8 * 6)) &&& 0xFF, (v >>> (8 * 7)) &&& 0xFF] 8 w) ∧
    sinkBytes [(v >>> (8 * 0)) &&& 0xFF, (v >>> (8 * 1)) &&& 0xFF, (v >>> (8 * 2)) &&& 0xFF,
        (v >>> (8 * 3)) &&& 0xFF, (v >>> (8 * 4)) &&& 0xFF, (v >>> (8 * 5)) &&& 0xFF,
        (v >>> (8 * 6)) &&& 0xFF, (v >>> (8 * 7)) &&& 0xFF] 8 =
      [(v >>> (8 * 0)) &&& 0xFF, (v >>> (8 * 1)) &&& 0xFF, (v >>> (8 * 2)) &&& 0xFF,
        (v >>> (8 * 3)) &&& 0xFF, (v >>> (8 * 4)) &&& 0xFF, (v >>> (8 * 5)) &&& 0xFF,
        (v >>> (8 * 6)) &&& 0xFF, (v >>> (8 * 7)) &&& 0xFF] ∧
    ((v >>> (8 * 0)) &&& 0xFF) + ((v >>> (8 * 1)) &&& 0xFF) * 2 ^ 8
      + ((v >>> (8 * 2)) &&& 0xFF) * 2 ^ 16 + ((v >>> (8 * 3)) &&& 0xFF) * 2 ^ 24
      + ((v >>> (8 * 4)) &&& 0xFF) * 2 ^ 32 + ((v >>> (8 * 5)) &&& 0xFF) * 2 ^ 40
      + ((v >>> (8 * 6)) &&& 0xFF) * 2 ^ 48 + ((v >>> (8 * 7)) &&& 0xFF) * 2 ^ 56 = v := by
  refine ⟨?_, rfl, ?_⟩
  · intro κ σ S w
    simp only [DDFOutputStream.WriteFixed64, DDFOutputStream.Write, uint8_and_255,
      Nat.mul_zero, Nat.mul_one]
  · simp only [and_255_eq_mod, Nat.shiftRight_eq_div_pow]
    norm_num at hv ⊢
    omega

theorem WriteFixed64_little_endian_witness :
    (1311768467463790320 : Nat) < 2 ^ 64 ∧
    (∀ (κ σ : Type) (S : DDFOutputStream κ σ) (w : σ),
      S.WriteFixed64 1311768467463790320 w = S.m_SaveFunction S.m_Context
        [0xF0, 0xDE, 0xBC, 0x9A, 0x78, 0x56, 0x34, 0x12] 8 w) :=
  ⟨by decide, (WriteFixed64_little_endian 1311768467463790320 (by decide)).1⟩

/-! ## Tags -/

theorem shl3_or (n t : Nat) (ht : t < 8) : (n <<< 3) ||| t = 8 * n + t := by
  have h := @Nat.mul_add_lt_is_or 3 t (by simpa using ht) n
  rw [Nat.shiftLeft_eq, Nat.mul_comm n (2 ^ 3), ← h]

theorem and_7_eq_mod (x : Nat) : x &&& 7 = x % 8 := by
  have h := Nat.and_pow_two_sub_one_eq_mod x 3
  norm_num at h
  exact h

/-- The tag computed by `WriteTag` when nothing is cut off by the 32-bit arithmetic. -/
theorem WriteTag_tag (n t : Nat) (hn : n < 2 ^ 29) (ht : t < 8) :
    uint32 (uint32 (n <<< 3) ||| t) = (n <<< 3) ||| t := by
  have h1 : uint32 (n <<< 3) = n <<< 3 := by
    rw [uint32, Nat.shiftLeft_eq]
    apply Nat.mod_eq_of_lt
    norm_num at hn ⊢
    omega
  rw [h1, shl3_or n t ht, uint32]
  apply Nat.mod_eq_of_lt
  norm_num at hn ⊢
  omega

/-- C7: for every field number `n < 2^29` and every wire type `t` in `{0, 1, 2, 5}`,
`WriteTag(n, t)` is `WriteVarInt32((n << 3) | t)`; the bytes handed to the save callback
decode to a value `T` with `T >> 3 = n` and `T & 7 = t`; `WriteTag(1, 0)` emits the single
byte `0x08`. -/
theorem WriteTag_roundtrip (n t : Nat) (hn : n < 2 ^ 29) (ht : t = 0 ∨ t = 1 ∨ t = 2 ∨ t = 5) :
    (∀ (κ σ : Type) (S : DDFOutputStream κ σ) (w : σ),
      S.WriteTag n t w = S.WriteVarInt32 ((n <<< 3) ||| t) w) ∧
    (∃ (bytes : List Nat) (size : Nat),
      varintScratch 5 ((n <<< 3) ||| t) = some (bytes, size) ∧
      (∀ (κ σ : Type) (S : DDFOutputStream κ σ) (w : σ),
        S.WriteTag n t w = some (S.m_SaveFunction S.m_Context bytes size w)) ∧
      ∃ T : Nat, decode_varint (sinkBytes bytes size) = some (T, []) ∧
        T >>> 3 = n ∧ T &&& 7 = t) ∧
    (∀ (κ σ : Type) (S : DDFOutputStream κ σ) (w : σ),
      S.WriteTag 1 0 w = some (S.m_SaveFunction S.m_Context [0x08, 0, 0, 0, 0] 1 w)) ∧
    sinkBytes [0x08, 0, 0, 0, 0] 1 = [0x08] := by
  have ht8 : t < 8 := by omega
  have htag := WriteTag_tag n t hn ht8
  have hlt : (n <<< 3) ||| t < 2 ^ 32 := by
    rw [shl3_or n t ht8]
    norm_num at hn ⊢
    omega
  have hw : ∀ (κ σ : Type) (S : DDFOutputStream κ σ) (w : σ),
      S.WriteTag n t w = S.WriteVarInt32 ((n <<< 3) ||| t) w := by
    intro κ σ S w
    simp only [DDFOutputStream.WriteTag, htag]
  refine ⟨hw, ⟨_, _, varintScratch_some 5 _ (varintBytes_length_le_five hlt), ?_, ?_⟩, ?_, rfl⟩
  · intro κ σ S w
    rw [hw, WriteVarInt32_eq S w hlt]
  · refine ⟨(n <<< 3) ||| t, ?_, ?_, ?_⟩
    · rw [sinkBytes_append_length]
      simpa using decode_varint_bytes ((n <<< 3) ||| t) []
    · rw [shl3_or n t ht8, Nat.shiftRight_eq_div_pow]
      norm_num
      omega
    · rw [shl3_or n t ht8, and_7_eq_mod]
      omega
  · intro κ σ S w
    have h8 : uint32 (uint32 (1 <<< 3) ||| 0) = 8 := by decide
    simp only [DDFOutputStream.WriteTag, h8]
    rw [WriteVarInt32_eq S w (by decide : 8 < 2 ^ 32),
      varintBytes_small (by decide : 8 ≤ 127)]
    rfl

theorem WriteTag_roundtrip_witness :
    (2 : Nat) < 2 ^ 29 ∧ ((5 : Nat) = 0 ∨ (5 : Nat) = 1 ∨ (5 : Nat) = 2 ∨ (5 : Nat) = 5) ∧
    ∃ (bytes : List Nat) (size : Nat),
      varintScratch 5 ((2 <<< 3) ||| 5) = some (bytes, size) ∧
      (∀ (κ σ : Type) (S : DDFOutputStream κ σ) (w : σ),
        S.WriteTag 2 5 w = some (S.m_SaveFunction S.m_Context bytes size w)) ∧
      ∃ T : Nat, decode_varint (sinkBytes bytes size) = some (T, []) ∧
        T >>> 3 = 2 ∧ T &&& 7 = 5 :=
  ⟨by decide, by decide, (WriteTag_roundtrip 2 5 (by decide) (by decide)).2.1⟩

/-! ## Strings -/

theorem uint32_lt (n : Nat) : uint32 n < 2 ^ 32 := by
  rw [uint32]
  exact Nat.mod_lt _ (by norm_num)

/-- What `WriteString` does, in one equation: the call for the length, and the call for the
payload when the first call reported success. -/
theorem WriteString_eq {κ σ : Type} (S : DDFOutputStream κ σ) (str : List Nat) (w : σ) :
    S.WriteString str w = some
      (if (S.m_SaveFunction S.m_Context
            (varintBytes (uint32 (strlen str))
              ++ List.replicate (5 - (varintBytes (uint32 (strlen str))).length) 0)
            ((varintBytes (uint32 (strlen str))).length : Int) w).1 = true then
        S.m_SaveFunction S.m_Context str (uint32_to_int (uint32 (strlen str)))
          (S.m_SaveFunction S.m_Context
            (varintBytes (uint32 (strlen str))
              ++ List.replicate (5 - (varintBytes (uint32 (strlen str))).length) 0)
            ((varintBytes (uint32 (strlen str))).length : Int) w).2
      else
        (false, (S.m_SaveFunction S.m_Context
            (varintBytes (uint32 (strlen str))
              ++ List.replicate (5 - (varintBytes (uint32 (strlen str))).length) 0)
            ((varintBytes (uint32 (strlen str))).length : Int) w).2)) := by
  simp only [DDFOutputStream.WriteString, WriteVarInt32_eq S w (uint32_lt (strlen str))]
  rcases h : S.m_SaveFunction S.m_Context
      (varintBytes (uint32 (strlen str))
        ++ List.replicate (5 - (varintBytes (uint32 (strlen str))).length) 0)
      ((varintBytes (uint32 (strlen str))).length : Int) w with ⟨b, w1⟩
  cases b <;> simp [DDFOutputStream.Write]

theorem logged_save {κ σ : Type} (S : DDFOutputStream κ σ) (buffer : List Nat) (length : Int)
    (w : σ) (l : List (List Nat × Int)) :
    (DDFOutputStream.logged S).m_SaveFunction (DDFOutputStream.logged S).m_Context buffer length
        (w, l) =
      ((S.m_SaveFunction S.m_Context buffer length w).1,
        ((S.m_SaveFunction S.m_Context buffer length w).2, l ++ [(buffer, length)])) := rfl

/-- C9: for every string and every sink, if the save callback reports failure on the first
call made by `WriteString` (the length varint), `WriteString` returns failure and makes no
further call; if the callback accepts the first call and reports failure on the second (the
payload), `WriteString` returns failure and makes no third call.  The calls made are the
ones the logging stream appends to `l`. -/
theorem WriteString_short_circuit {κ σ : Type} (S : DDFOutputStream κ σ) (str : List Nat)
    (w : σ) (l : List (List Nat × Int)) :
    ∃ (bytes : List Nat) (size : Nat),
      varintScratch 5 (uint32 (strlen str)) = some (bytes, size) ∧
      ((S.m_SaveFunction S.m_Context bytes size w).1 = false →
        S.WriteString str w = some (false, (S.m_SaveFunction S.m_Context bytes size w).2) ∧
        (DDFOutputStream.logged S).WriteString str (w, l) =
          some (false, ((S.m_SaveFunction S.m_Context bytes size w).2, l ++ [(bytes, (size : Int))]))) ∧
      ((S.m_SaveFunction S.m_Context bytes size w).1 = true →
        (S.m_SaveFunction S.m_Context str (uint32_to_int (uint32 (strlen str)))
          (S.m_SaveFunction S.m_Context bytes size w).2).1 = false →
        S.WriteString str w = some (false,
          (S.m_SaveFunction S.m_Context str (uint32_to_int (uint32 (strlen str)))
            (S.m_SaveFunction S.m_Context bytes size w).2).2) ∧
        (DDFOutputStream.logged S).WriteString str (w, l) = some (false,
          ((S.m_SaveFunction S.m_Context str (uint32_to_int (uint32 (strlen str)))
            (S.m_SaveFunction S.m_Context bytes size w).2).2,
           l ++ [(bytes, (size : Int)), (str, uint32_to_int (uint32 (strlen str)))]))) := by
  refine ⟨_, _, varintScratch_some 5 _ (varintBytes_length_le_five (uint32_lt (strlen str))),
    ?_, ?_⟩
  · intro h1
    rw [WriteString_eq, WriteString_eq, logged_save]
    simp [h1]
  · intro h1 h2
    rw [WriteString_eq, WriteString_eq, logged_save]
    simp only [h1, if_true, logged_save]
    simp [← h2]

theorem WriteString_short_circuit_witness :
    (∃ (bytes : List Nat) (size : Nat),
      varintScratch 5 (uint32 (strlen [0x61, 0x62])) = some (bytes, size) ∧
      (limitedSink.m_SaveFunction limitedSink.m_Context bytes size (0, [])).1 = false ∧
      (DDFOutputStream.logged limitedSink).WriteString [0x61, 0x62] ((0, []), []) =
        some (false, ((limitedSink.m_SaveFunction limitedSink.m_Context bytes size (0, [])).2,
          [] ++ [(bytes, (size : Int))]))) ∧
    (∃ (bytes : List Nat) (size : Nat),
      varintScratch 5 (uint32 (strlen [0x61, 0x62])) = some (bytes, size) ∧
      (limitedSink.m_SaveFunction limitedSink.m_Context bytes size (1, [])).1 = true ∧
      (limitedSink.m_SaveFunction limitedSink.m_Context [0x61, 0x62]
        (uint32_to_int (uint32 (strlen [0x61, 0x62])))
        (limitedSink.m_SaveFunction limitedSink.m_Context bytes size (1, [])).2).1 = false ∧
      (DDFOutputStream.logged limitedSink).WriteString [0x61, 0x62] ((1, []), []) =
        some (false,
          ((limitedSink.m_SaveFunction limitedSink.m_Context [0x61, 0x62]
            (uint32_to_int (uint32 (strlen [0x61, 0x62])))
            (limitedSink.m_SaveFunction limitedSink.m_Context bytes size (1, [])).2).2,
           [] ++ [(bytes, (size : Int)),
             ([0x61, 0x62], uint32_to_int (uint32 (strlen [0x61, 0x62])))]))) := by
  constructor
  · obtain ⟨bytes, size, h, h1, -⟩ :=
      WriteString_short_circuit limitedSink [0x61, 0x62] (0, []) []
    exact ⟨bytes, size, h, rfl, (h1 rfl).2⟩
  · obtain ⟨bytes, size, h, -, h2⟩ :=
      WriteString_short_circuit limitedSink [0x61, 0x62] (1, []) []
    exact ⟨bytes, size, h, rfl, rfl, (h2 rfl rfl).2⟩

theorem strlen_of_no_zero (s : List Nat) (hz : ∀ c ∈ s, c ≠ 0) : strlen s = s.length := by
  have h : s.takeWhile (fun c => c != 0) = s := by
    rw [List.takeWhile_eq_self_iff]
    intro c hc
    simpa using hz c hc
  rw [strlen, h]

theorem uint32_to_int_of_lt (n : Nat) (h : n < 2 ^ 31) : uint32_to_int n = (n : Int) := by
  have h1 : n % 2 ^ 32 = n := Nat.mod_eq_of_lt (by norm_num at h ⊢; omega)
  rw [uint32_to_int, h1, if_pos h]

theorem sinkBytes_length (s : List Nat) : sinkBytes s (s.length : Int) = s := by
  simp [sinkBytes]

theorem decode_string_bytes (s : List Nat) :
    decode_string (varintBytes s.length ++ s) = some (s, []) := by
  simp [decode_string, decode_varint_bytes]

/-- C8, as amended: for every byte sequence `s` without a zero byte and with fewer than `2^31`
bytes, `WriteString(s)` on a sink that accepts every call makes exactly two calls, the first
with the varint of `len(s)` and the second with the `len(s)` bytes of `s`, and nothing else;
reading the varint length and then that many bytes recovers `s`; `WriteString("ab")` emits
`[0x02, 0x61, 0x62]`. -/
theorem WriteString_roundtrip {κ σ : Type} (S : DDFOutputStream κ σ) (s : List Nat) (w : σ)
    (l : List (List Nat × Int))
    (hz : ∀ c ∈ s, c ≠ 0) (hlen : s.length < 2 ^ 31)
    (hacc : ∀ (c : κ) (b : List Nat) (n : Int) (w : σ), (S.m_SaveFunction c b n w).1 = true) :
    (∃ (bytes : List Nat) (size : Nat) (w2 : σ),
      varintScratch 5 s.length = some (bytes, size) ∧
      S.WriteString s w = some (true, w2) ∧
      (DDFOutputStream.logged S).WriteString s (w, l) =
        some (true, (w2, l ++ [(bytes, (size : Int)), (s, (s.length : Int))])) ∧
      decode_varint (sinkBytes bytes size) = some (s.length, []) ∧
      sinkBytes s (s.length : Int) = s ∧
      decode_string (sinkBytes bytes size ++ sinkBytes s (s.length : Int)) = some (s, [])) ∧
    memorySink.WriteString [0x61, 0x62] [] = some (true, [0x02, 0x61, 0x62]) := by
  have hs : strlen s = s.length := strlen_of_no_zero s hz
  have hu : uint32 (strlen s) = s.length := by
    rw [hs, uint32]
    exact Nat.mod_eq_of_lt (by norm_num at hlen ⊢; omega)
  have hi : uint32_to_int s.length = (s.length : Int) := uint32_to_int_of_lt _ hlen
  have h32 : s.length < 2 ^ 32 := by norm_num at hlen ⊢; omega
  have ha1 := hacc S.m_Context
    (varintBytes s.length ++ List.replicate (5 - (varintBytes s.length).length) 0)
    ((varintBytes s.length).length : Int) w
  have ha2 := hacc S.m_Context s (s.length : Int)
    (S.m_SaveFunction S.m_Context
      (varintBytes s.length ++ List.replicate (5 - (varintBytes s.length).length) 0)
      ((varintBytes s.length).length : Int) w).2
  constructor
  · refine ⟨_, _, (S.m_SaveFunction S.m_Context s (s.length : Int)
      (S.m_SaveFunction S.m_Context
        (varintBytes s.length ++ List.replicate (5 - (varintBytes s.length).length) 0)
        ((varintBytes s.length).length : Int) w).2).2,
      varintScratch_some 5 _ (varintBytes_length_le_five h32), ?_, ?_, ?_, ?_, ?_⟩
    · rw [WriteString_eq, hu, hi, if_pos ha1, ← ha2]
    · rw [WriteString_eq, hu, hi, logged_save, logged_save]
      simp only [ha1, if_true, ha2, List.append_assoc, List.singleton_append]
    · rw [sinkBytes_append_length]
      simpa using decode_varint_bytes s.length []
    · exact sinkBytes_length s
    · rw [sinkBytes_append_length, sinkBytes_length]
      exact decode_string_bytes s
  · rw [WriteString_eq]
    have e1 : uint32 (strlen [0x61, 0x62]) = 2 := by decide
    rw [e1, varintBytes_small (by decide : 2 ≤ 127)]
    rfl

theorem strlen_replicate (n a : Nat) (ha : a ≠ 0) : strlen (List.replicate n a) = n := by
  rw [strlen_of_no_zero, List.length_replicate]
  intro c hc
  rw [List.eq_of_mem_replicate hc]
  exact ha

/-- What `WriteString` leaves in the memory sink. -/
theorem memorySink_WriteString (str r : List Nat) :
    memorySink.WriteString str r = some (true,
      r ++ varintBytes (uint32 (strlen str))
        ++ sinkBytes str (uint32_to_int (uint32 (strlen str)))) := by
  rw [WriteString_eq]
  simp only [memorySink, DDFOutputStream.new, if_true, sinkBytes_append_length]

/-- What `WriteString` leaves in the sink that accepts one call. -/
theorem limitedSink_WriteString (str r : List Nat) :
    limitedSink.WriteString str (1, r) = some (false,
      (0, r ++ varintBytes (uint32 (strlen str)))) := by
  rw [WriteString_eq]
  simp only [limitedSink, DDFOutputStream.new, if_true, sinkBytes_append_length]

theorem WriteString_roundtrip_witness :
    (∀ c ∈ [0x61, 0x62], c ≠ 0) ∧ [0x61, 0x62].length < 2 ^ 31 ∧
    (∀ (c : Unit) (b : List Nat) (n : Int) (w : List Nat),
      (memorySink.m_SaveFunction c b n w).1 = true) ∧
    ∃ (bytes : List Nat) (size : Nat) (w2 : List Nat),
      varintScratch 5 [0x61, 0x62].length = some (bytes, size) ∧
      memorySink.WriteString [0x61, 0x62] [] = some (true, w2) ∧
      (DDFOutputStream.logged memorySink).WriteString [0x61, 0x62] ([], []) =
        some (true, (w2, [] ++ [(bytes, (size : Int)),
          ([0x61, 0x62], (([0x61, 0x62] : List Nat).length : Int))])) ∧
      decode_varint (sinkBytes bytes size) = some ([0x61, 0x62].length, []) ∧
      sinkBytes [0x61, 0x62] (([0x61, 0x62] : List Nat).length : Int) = [0x61, 0x62] ∧
      decode_string (sinkBytes bytes size
        ++ sinkBytes [0x61, 0x62] (([0x61, 0x62] : List Nat).length : Int))
          = some ([0x61, 0x62], []) :=
  ⟨by decide, by decide, fun _ _ _ _ => rfl,
    (WriteString_roundtrip memorySink [0x61, 0x62] [] [] (by decide) (by decide)
      (fun _ _ _ _ => rfl)).1⟩

theorem varintBytes_2147483648 : varintBytes 2147483648 = [0x80, 0x80, 0x80, 0x80, 0x08] := by
  rw [varintBytes_big (by decide : 127 < 2147483648),
    varintBytes_big (by decide : 127 < 2147483648 / 128),
    varintBytes_big (by decide : 127 < 2147483648 / 128 / 128),
    varintBytes_big (by decide : 127 < 2147483648 / 128 / 128 / 128),
    varintBytes_small (by decide : 2147483648 / 128 / 128 / 128 / 128 ≤ 127)]

/-- C8, as stated, fails.  A sequence with a zero byte is cut at that byte: for `[0x61, 0x00, 0x62]` the
sink receives `[0x01, 0x61]`, which does not decode to the sequence.  A sequence of `2^32`
bytes gets the length prefix 0 and no payload.  For a sequence of `2^31` bytes the length
handed to the save callback with the payload is `-2^31`. -/
theorem WriteString_roundtrip_counterexample :
    (memorySink.WriteString [0x61, 0x00, 0x62] [] = some (true, [0x01, 0x61]) ∧
      decode_string [0x01, 0x61] ≠ some ([0x61, 0x00, 0x62], [])) ∧
    (strlen (List.replicate 4294967296 0x61) = 4294967296 ∧
      memorySink.WriteString (List.replicate 4294967296 0x61) [] = some (true, [0x00])) ∧
    (strlen (List.replicate 2147483648 0x61) = 2147483648 ∧
      ∃ w2 : List Nat, (DDFOutputStream.logged memorySink).WriteString
        (List.replicate 2147483648 0x61) ([], []) =
        some (true, (w2, [([0x80, 0x80, 0x80, 0x80, 0x08], 5),
          (List.replicate 2147483648 0x61, -2147483648)]))) := by
  refine ⟨⟨?_, ?_⟩, ⟨strlen_replicate _ _ (by decide), ?_⟩,
    ⟨strlen_replicate _ _ (by decide), ?_⟩⟩
  · rw [memorySink_WriteString]
    have e1 : uint32 (strlen [0x61, 0x00, 0x62]) = 1 := by decide
    rw [e1, varintBytes_small (by decide : 1 ≤ 127)]
    rfl
  · decide
  · rw [memorySink_WriteString, strlen_replicate _ _ (by decide)]
    have e1 : uint32 4294967296 = 0 := by decide
    have e2 : uint32_to_int 0 = 0 := by decide
    rw [e1, e2, varintBytes_small (by decide : 0 ≤ 127)]
    simp only [sinkBytes, Int.toNat_zero, List.take_zero]
    rfl
  · rw [WriteString_eq, strlen_replicate _ _ (by decide)]
    have e1 : uint32 2147483648 = 2147483648 := by decide
    have e2 : uint32_to_int 2147483648 = -2147483648 := by decide
    rw [e1, e2, varintBytes_2147483648]
    simp only [logged_save]
    exact ⟨_, rfl⟩

/-- C10, as amended: `WriteString` is not atomic.  For every string `str` whose length is
below `2^32`, when the sink accepts the call for the length varint and rejects the call for
the payload, `WriteString` returns failure after the sink has received the varint of the
length: the calls made are the varint call and the rejected payload call, and a sink in
memory that accepts one call is left holding the bytes it had before followed by the varint
of the length, which is not what it held before the call. -/
theorem WriteString_not_atomic {κ σ : Type} (S : DDFOutputStream κ σ) (str : List Nat) (w : σ)
    (l : List (List Nat × Int)) (r : List Nat) (hlen : strlen str < 2 ^ 32) :
    ∃ (bytes : List Nat) (size : Nat),
      varintScratch 5 (strlen str) = some (bytes, size) ∧
      decode_varint (sinkBytes bytes size) = some (strlen str, []) ∧
      ((S.m_SaveFunction S.m_Context bytes size w).1 = true →
        (S.m_SaveFunction S.m_Context str (uint32_to_int (strlen str))
          (S.m_SaveFunction S.m_Context bytes size w).2).1 = false →
        S.WriteString str w = some (false,
          (S.m_SaveFunction S.m_Context str (uint32_to_int (strlen str))
            (S.m_SaveFunction S.m_Context bytes size w).2).2) ∧
        (DDFOutputStream.logged S).WriteString str (w, l) = some (false,
          ((S.m_SaveFunction S.m_Context str (uint32_to_int (strlen str))
            (S.m_SaveFunction S.m_Context bytes size w).2).2,
           l ++ [(bytes, (size : Int)), (str, uint32_to_int (strlen str))]))) ∧
      limitedSink.WriteString str (1, r) = some (false, (0, r ++ sinkBytes bytes size)) ∧
      r ++ sinkBytes bytes size ≠ r := by
  have hu : uint32 (strlen str) = strlen str := by
    rw [uint32]
    exact Nat.mod_eq_of_lt hlen
  refine ⟨_, _, varintScratch_some 5 _ (varintBytes_length_le_five hlen), ?_, ?_, ?_, ?_⟩
  · rw [sinkBytes_append_length]
    simpa using decode_varint_bytes (strlen str) []
  · intro h1 h2
    rw [WriteString_eq, WriteString_eq, logged_save, hu]
    simp only [h1, if_true, logged_save]
    simp [← h2]
  · rw [limitedSink_WriteString, hu, sinkBytes_append_length]
  · rw [sinkBytes_append_length]
    intro hcontra
    have hp := varintBytes_length_pos (strlen str)
    have := congrArg List.length hcontra
    simp only [List.length_append] at this
    omega

theorem WriteString_not_atomic_witness :
    strlen [0x61, 0x62] < 2 ^ 32 ∧
    ∃ (bytes : List Nat) (size : Nat),
      varintScratch 5 (strlen [0x61, 0x62]) = some (bytes, size) ∧
      decode_varint (sinkBytes bytes size) = some (strlen [0x61, 0x62], []) ∧
      (limitedSink.m_SaveFunction limitedSink.m_Context bytes size (1, [])).1 = true ∧
      (limitedSink.m_SaveFunction limitedSink.m_Context [0x61, 0x62]
        (uint32_to_int (strlen [0x61, 0x62]))
        (limitedSink.m_SaveFunction limitedSink.m_Context bytes size (1, [])).2).1 = false ∧
      (DDFOutputStream.logged limitedSink).WriteString [0x61, 0x62] ((1, []), []) =
        some (false,
          ((limitedSink.m_SaveFunction limitedSink.m_Context [0x61, 0x62]
            (uint32_to_int (strlen [0x61, 0x62]))
            (limitedSink.m_SaveFunction limitedSink.m_Context bytes size (1, [])).2).2,
           [] ++ [(bytes, (size : Int)), ([0x61, 0x62], uint32_to_int (strlen [0x61, 0x62]))])) ∧
      limitedSink.WriteString [0x61, 0x62] (1, []) = some (false, (0, [] ++ sinkBytes bytes size)) := by
  refine ⟨by decide, ?_⟩
  obtain ⟨bytes, size, h, hd, h2, h3, -⟩ :=
    WriteString_not_atomic limitedSink [0x61, 0x62] (1, []) [] [] (by decide)
  exact ⟨bytes, size, h, hd, rfl, rfl, (h2 rfl rfl).2, h3⟩

/-- C10, as stated, fails for a string of `2^32` bytes: the sink that accepts one call is left
with the single byte `0x00`, the varint of 0, and not with the varint of the length, which is
`[0x80, 0x80, 0x80, 0x80, 0x10]`. -/
theorem WriteString_not_atomic_counterexample :
    strlen (List.replicate 4294967296 0x61) = 4294967296 ∧
    limitedSink.WriteString (List.replicate 4294967296 0x61) (1, []) = some (false, (0, [0x00])) ∧
    decode_varint [0x00] = some (0, []) ∧
    varintScratch 10 4294967296 = some ([0x80, 0x80, 0x80, 0x80, 0x10, 0, 0, 0, 0, 0], 5) := by
  refine ⟨strlen_replicate _ _ (by decide), ?_, by decide, ?_⟩
  · rw [limitedSink_WriteString, strlen_replicate _ _ (by decide)]
    have e1 : uint32 4294967296 = 0 := by decide
    rw [e1, varintBytes_small (by decide : 0 ≤ 127)]
    rfl
  · rw [varintScratch_some 10 _ (varintBytes_length_le_ten (by decide))]
    rw [varintBytes_big (by decide : 127 < 4294967296),
      varintBytes_big (by decide : 127 < 4294967296 / 128),
      varintBytes_big (by decide : 127 < 4294967296 / 128 / 128),
      varintBytes_big (by decide : 127 < 4294967296 / 128 / 128 / 128),
      varintBytes_small (by decide : 4294967296 / 128 / 128 / 128 / 128 ≤ 127)]
    rfl

/-! ## Signed values -/

theorem varintBytes_length_ge (k : Nat) : ∀ v : Nat, 128 ^ k ≤ v →
    k + 1 ≤ (varintBytes v).length := by
  induction k with
  | zero =>
    intro v _
    exact varintBytes_length_pos v
  | succ k ih =>
    intro v h
    have h128 : 128 ^ (k + 1) = 128 ^ k * 128 := by ring
    have hk : 1 ≤ 128 ^ k := Nat.one_le_pow _ _ (by norm_num)
    have hv : 127 < v := by omega
    rw [varintBytes_big hv, List.length_cons]
    have : 128 ^ k ≤ v / 128 := by
      rw [Nat.le_div_iff_mul_le (by norm_num)]
      omega
    have := ih _ this
    omega

theorem int_to_uint32_nonneg {v : Int} (h0 : 0 ≤ v) (hhi : v < 2 ^ 31) :
    int_to_uint32 v = v.toNat := by
  rw [int_to_uint32, Int.emod_eq_of_lt h0 (by norm_num at hhi ⊢; omega)]

theorem int_to_uint32_neg {v : Int} (hlo : -2 ^ 31 ≤ v) (h0 : v < 0) :
    int_to_uint32 v = (v + 2 ^ 32).toNat := by
  rw [int_to_uint32]
  congr 1
  norm_num at hlo ⊢
  omega

theorem int_to_uint64_nonneg {v : Int} (h0 : 0 ≤ v) (hhi : v < 2 ^ 63) :
    int_to_uint64 v = v.toNat := by
  rw [int_to_uint64, Int.emod_eq_of_lt h0 (by norm_num at hhi ⊢; omega)]

theorem int_to_uint64_neg {v : Int} (hlo : -2 ^ 63 ≤ v) (h0 : v < 0) :
    int_to_uint64 v = (v + 2 ^ 64).toNat := by
  rw [int_to_uint64]
  congr 1
  norm_num at hlo ⊢
  omega

/-- C11: for every signed 32-bit value `v`, the bytes that `WriteVarInt32SignExtended(v)`
hands to the save callback are the bytes that `WriteVarInt64` hands over for `v` widened to
64-bit two's complement (`v` for `v ≥ 0`, `v + 2^64` for `v < 0`). -/
theorem WriteVarInt32SignExtended_widen (v : Int) (hlo : -2 ^ 31 ≤ v) (hhi : v < 2 ^ 31) :
    ∃ (bytes : List Nat) (size : Nat) (bytes64 : List Nat) (size64 : Nat),
      (∀ (κ σ : Type) (S : DDFOutputStream κ σ) (w : σ),
        S.WriteVarInt32SignExtended v w = some (S.m_SaveFunction S.m_Context bytes size w)) ∧
      varintScratch 10 (widen64 v) = some (bytes64, size64) ∧
      (∀ (κ σ : Type) (S : DDFOutputStream κ σ) (w : σ),
        S.WriteVarInt64 (widen64 v) w = some (S.m_SaveFunction S.m_Context bytes64 size64 w)) ∧
      sinkBytes bytes size = sinkBytes bytes64 size64 ∧
      (∀ r : List Nat,
        memorySink.WriteVarInt32SignExtended v r = memorySink.WriteVarInt64 (widen64 v) r) := by
  by_cases h0 : v < 0
  · have hw : widen64 v = int_to_uint64 v := by
      rw [widen64, if_neg (by omega), int_to_uint64_neg (by norm_num at hlo ⊢; omega) h0]
    have h64 : widen64 v < 2 ^ 64 := by
      rw [widen64, if_neg (by omega)]
      norm_num at hlo ⊢
      omega
    have hs : ∀ (κ σ : Type) (S : DDFOutputStream κ σ) (w : σ),
        S.WriteVarInt32SignExtended v w = S.WriteVarInt64 (widen64 v) w := by
      intro κ σ S w
      rw [DDFOutputStream.WriteVarInt32SignExtended, if_pos h0, hw]
    refine ⟨_, _, _, _, ?_, varintScratch_some 10 _ (varintBytes_length_le_ten h64), ?_, rfl, ?_⟩
    · intro κ σ S w
      rw [hs, WriteVarInt64_eq S w h64]
    · intro κ σ S w
      exact WriteVarInt64_eq S w h64
    · intro r
      rw [hs]
  · have h0n : 0 ≤ v := by omega
    have hw : widen64 v = int_to_uint32 v := by
      rw [widen64, if_pos h0n, int_to_uint32_nonneg h0n hhi]
    have h32 : widen64 v < 2 ^ 32 := by
      rw [widen64, if_pos h0n]
      norm_num at hhi ⊢
      omega
    have h64 : widen64 v < 2 ^ 64 := by
      norm_num at h32 ⊢
      omega
    have hs : ∀ (κ σ : Type) (S : DDFOutputStream κ σ) (w : σ),
        S.WriteVarInt32SignExtended v w = S.WriteVarInt32 (widen64 v) w := by
      intro κ σ S w
      rw [DDFOutputStream.WriteVarInt32SignExtended, if_neg h0, hw]
    refine ⟨varintBytes (widen64 v) ++ List.replicate (5 - (varintBytes (widen64 v)).length) 0,
      (varintBytes (widen64 v)).length, _, _, ?_,
      varintScratch_some 10 _ (varintBytes_length_le_ten h64), ?_, ?_, ?_⟩
    · intro κ σ S w
      rw [hs, WriteVarInt32_eq S w h32]
    · intro κ σ S w
      exact WriteVarInt64_eq S w h64
    · rw [sinkBytes_append_length, sinkBytes_append_length]
    · intro r
      rw [hs, WriteVarInt32_eq _ _ h32, WriteVarInt64_eq _ _ h64]
      simp only [memorySink, DDFOutputStream.new, sinkBytes_append_length]

theorem WriteVarInt32SignExtended_widen_witness :
    (-2 ^ 31 : Int) ≤ -1 ∧ (-1 : Int) < 2 ^ 31 ∧
    ∃ (bytes : List Nat) (size : Nat) (bytes64 : List Nat) (size64 : Nat),
      (∀ (κ σ : Type) (S : DDFOutputStream κ σ) (w : σ),
        S.WriteVarInt32SignExtended (-1) w
          = some (S.m_SaveFunction S.m_Context bytes size w)) ∧
      varintScratch 10 (widen64 (-1)) = some (bytes64, size64) ∧
      (∀ (κ σ : Type) (S : DDFOutputStream κ σ) (w : σ),
        S.WriteVarInt64 (widen64 (-1)) w
          = some (S.m_SaveFunction S.m_Context bytes64 size64 w)) ∧
      sinkBytes bytes size = sinkBytes bytes64 size64 ∧
      (∀ r : List Nat,
        memorySink.WriteVarInt32SignExtended (-1) r
          = memorySink.WriteVarInt64 (widen64 (-1)) r) :=
  ⟨by decide, by decide, WriteVarInt32SignExtended_widen (-1) (by decide) (by decide)⟩

theorem varintBytes_length_five {p : Nat} (hlo : 2 ^ 28 ≤ p) (hhi : p < 2 ^ 32) :
    (varintBytes p).length = 5 := by
  have h1 := varintBytes_length_le_five hhi
  have h2 := varintBytes_length_ge 4 p (by norm_num at hlo ⊢; omega)
  omega

theorem varintBytes_length_ten {p : Nat} (hlo : 2 ^ 63 ≤ p) (hhi : p < 2 ^ 64) :
    (varintBytes p).length = 10 := by
  have h1 := varintBytes_length_le_ten hhi
  have h2 := varintBytes_length_ge 9 p (by norm_num at hlo ⊢; omega)
  omega

/-- C12: `WriteInt32` does not sign-extend.  For every signed 32-bit value `v`,
`WriteInt32(v)` is `WriteVarInt32` of the 32-bit pattern `v mod 2^32`; for negative `v` it
hands over exactly 5 bytes while `WriteVarInt32SignExtended(v)` hands over exactly 10, so the
two differ; for non-negative `v` the two are the same call. -/
theorem WriteInt32_not_sign_extended (v : Int) (hlo : -2 ^ 31 ≤ v) (hhi : v < 2 ^ 31) :
    ∃ (bytes : List Nat) (size : Nat),
      varintScratch 5 (v % 2 ^ 32).toNat = some (bytes, size) ∧
      (∀ (κ σ : Type) (S : DDFOutputStream κ σ) (w : σ),
        S.WriteInt32 v w = S.WriteVarInt32 (v % 2 ^ 32).toNat w ∧
        S.WriteInt32 v w = some (S.m_SaveFunction S.m_Context bytes size w)) ∧
      (v < 0 →
        size = 5 ∧ (sinkBytes bytes size).length = 5 ∧
        ∃ (bytesE : List Nat) (sizeE : Nat),
          (∀ (κ σ : Type) (S : DDFOutputStream κ σ) (w : σ),
            S.WriteVarInt32SignExtended v w
              = some (S.m_SaveFunction S.m_Context bytesE sizeE w)) ∧
          sizeE = 10 ∧ (sinkBytes bytesE sizeE).length = 10 ∧
          sinkBytes bytes size ≠ sinkBytes bytesE sizeE) ∧
      (0 ≤ v →
        ∀ (κ σ : Type) (S : DDFOutputStream κ σ) (w : σ),
          S.WriteInt32 v w = S.WriteVarInt32SignExtended v w) := by
  have hp : (v % 2 ^ 32).toNat < 2 ^ 32 := by
    have := Int.emod_lt_of_pos v (show (0 : Int) < 2 ^ 32 by norm_num)
    have := Int.emod_nonneg v (show (2 ^ 32 : Int) ≠ 0 by norm_num)
    norm_num at *
    omega
  refine ⟨_, _, varintScratch_some 5 _ (varintBytes_length_le_five hp), ?_, ?_, ?_⟩
  · intro κ σ S w
    exact ⟨rfl, WriteVarInt32_eq S w hp⟩
  · intro h0
    have hp5 : (varintBytes (v % 2 ^ 32).toNat).length = 5 := by
      apply varintBytes_length_five _ hp
      have := int_to_uint32_neg hlo h0
      rw [int_to_uint32] at this
      rw [this]
      norm_num at hlo ⊢
      omega
    have hq : int_to_uint64 v < 2 ^ 64 ∧ 2 ^ 63 ≤ int_to_uint64 v := by
      rw [int_to_uint64_neg (by norm_num at hlo ⊢; omega) h0]
      norm_num at hlo ⊢
      omega
    have hq10 := varintBytes_length_ten hq.2 hq.1
    refine ⟨hp5, ?_, varintBytes (int_to_uint64 v)
        ++ List.replicate (10 - (varintBytes (int_to_uint64 v)).length) 0,
      (varintBytes (int_to_uint64 v)).length, ?_, hq10, ?_, ?_⟩
    · rw [sinkBytes_append_length, hp5]
    · intro κ σ S w
      rw [DDFOutputStream.WriteVarInt32SignExtended, if_pos h0, WriteVarInt64_eq S w hq.1]
    · rw [sinkBytes_append_length, hq10]
    · rw [sinkBytes_append_length, sinkBytes_append_length]
      intro hc
      have := congrArg List.length hc
      omega
  · intro h0 κ σ S w
    rw [DDFOutputStream.WriteVarInt32SignExtended, if_neg (by omega), DDFOutputStream.WriteInt32]

theorem WriteInt32_not_sign_extended_witness :
    (-2 ^ 31 : Int) ≤ -1 ∧ (-1 : Int) < 2 ^ 31 ∧
    (∃ (bytes : List Nat) (size : Nat),
      varintScratch 5 ((-1 : Int) % 2 ^ 32).toNat = some (bytes, size) ∧
      (∀ (κ σ : Type) (S : DDFOutputStream κ σ) (w : σ),
        S.WriteInt32 (-1) w = some (S.m_SaveFunction S.m_Context bytes size w)) ∧
      size = 5 ∧
      ∃ (bytesE : List Nat) (sizeE : Nat),
        (∀ (κ σ : Type) (S : DDFOutputStream κ σ) (w : σ),
          S.WriteVarInt32SignExtended (-1) w
            = some (S.m_SaveFunction S.m_Context bytesE sizeE w)) ∧
        sizeE = 10 ∧ sinkBytes bytes size ≠ sinkBytes bytesE sizeE) ∧
    ((0 : Int) ≤ 7 ∧ ∀ (κ σ : Type) (S : DDFOutputStream κ σ) (w : σ),
      S.WriteInt32 7 w = S.WriteVarInt32SignExtended 7 w) := by
  refine ⟨by decide, by decide, ?_, by decide, ?_⟩
  · obtain ⟨bytes, size, h, hw, hneg, -⟩ :=
      WriteInt32_not_sign_extended (-1) (by decide) (by decide)
    obtain ⟨h5, -, bytesE, sizeE, hE, h10, -, hne⟩ := hneg (by decide)
    exact ⟨bytes, size, h, fun κ σ S w => (hw κ σ S w).2, h5, bytesE, sizeE, hE, h10, hne⟩
  · obtain ⟨-, -, -, -, -, hpos⟩ := WriteInt32_not_sign_extended 7 (by decide) (by decide)
    exact hpos (by decide)

/-- C13: for every signed 64-bit value `v`, `WriteInt64(v)` is `WriteVarInt64`, and
`WriteUInt64`, of the 64-bit pattern `v mod 2^64`; the bytes handed over decode to a pattern
that, reinterpreted as a signed 64-bit value, is `v`; every negative `v` takes exactly 10
bytes. -/
theorem WriteInt64_pattern (v : Int) (hlo : -2 ^ 63 ≤ v) (hhi : v < 2 ^ 63) :
    ∃ (bytes : List Nat) (size : Nat),
      varintScratch 10 (v % 2 ^ 64).toNat = some (bytes, size) ∧
      (∀ (κ σ : Type) (S : DDFOutputStream κ σ) (w : σ),
        S.WriteInt64 v w = S.WriteVarInt64 (v % 2 ^ 64).toNat w ∧
        S.WriteInt64 v w = S.WriteUInt64 (v % 2 ^ 64).toNat w ∧
        S.WriteInt64 v w = some (S.m_SaveFunction S.m_Context bytes size w)) ∧
      (∃ p : Nat, decode_varint (sinkBytes bytes size) = some (p, []) ∧
        reinterpret_int64 p = v) ∧
      (v < 0 → size = 10 ∧ (sinkBytes bytes size).length = 10) := by
  have hp0 := Int.emod_nonneg v (show (2 ^ 64 : Int) ≠ 0 by norm_num)
  have hp1 := Int.emod_lt_of_pos v (show (0 : Int) < 2 ^ 64 by norm_num)
  have hp : (v % 2 ^ 64).toNat < 2 ^ 64 := by
    norm_num at *
    omega
  refine ⟨_, _, varintScratch_some 10 _ (varintBytes_length_le_ten hp), ?_, ?_, ?_⟩
  · intro κ σ S w
    exact ⟨rfl, rfl, WriteVarInt64_eq S w hp⟩
  · refine ⟨(v % 2 ^ 64).toNat, ?_, ?_⟩
    · rw [sinkBytes_append_length]
      simpa using decode_varint_bytes (v % 2 ^ 64).toNat []
    · rw [reinterpret_int64]
      by_cases h0 : v < 0
      · have := int_to_uint64_neg hlo h0
        rw [int_to_uint64] at this
        rw [this]
        have hge : ¬ (v + 2 ^ 64).toNat < 2 ^ 63 := by
          norm_num at hlo ⊢
          omega
        rw [if_neg hge]
        norm_num at hlo ⊢
        omega
      · have := int_to_uint64_nonneg (show 0 ≤ v by omega) hhi
        rw [int_to_uint64] at this
        rw [this]
        have hlt : v.toNat < 2 ^ 63 := by
          norm_num at hhi ⊢
          omega
        rw [if_pos hlt]
        omega
  · intro h0
    have h10 : (varintBytes (v % 2 ^ 64).toNat).length = 10 := by
      apply varintBytes_length_ten _ hp
      have := int_to_uint64_neg hlo h0
      rw [int_to_uint64] at this
      rw [this]
      norm_num at hlo ⊢
      omega
    exact ⟨h10, by rw [sinkBytes_append_length, h10]⟩

theorem WriteInt64_pattern_witness :
    (-2 ^ 63 : Int) ≤ -1 ∧ (-1 : Int) < 2 ^ 63 ∧ (-1 : Int) < 0 ∧
    ∃ (bytes : List Nat) (size : Nat),
      varintScratch 10 ((-1 : Int) % 2 ^ 64).toNat = some (bytes, size) ∧
      (∀ (κ σ : Type) (S : DDFOutputStream κ σ) (w : σ),
        S.WriteInt64 (-1) w = some (S.m_SaveFunction S.m_Context bytes size w)) ∧
      (∃ p : Nat, decode_varint (sinkBytes bytes size) = some (p, []) ∧
        reinterpret_int64 p = -1) ∧
      size = 10 := by
  refine ⟨by decide, by decide, by decide, ?_⟩
  obtain ⟨bytes, size, h, hw, hd, hneg⟩ := WriteInt64_pattern (-1) (by decide) (by decide)
  exact ⟨bytes, size, h, fun κ σ S w => (hw κ σ S w).2.2, hd, (hneg (by decide)).1⟩

/-! ## Floating point values -/

theorem WriteFixed32_eq {κ σ : Type} (S : DDFOutputStream κ σ) (w : σ) (v : Nat) :
    S.WriteFixed32 v w = S.m_SaveFunction S.m_Context
      [(v >>> (8 * 0)) &&& 0xFF, (v >>> (8 * 1)) &&& 0xFF, (v >>> (8 * 2)) &&& 0xFF,
        (v >>> (8 * 3)) &&& 0xFF] 4 w := by
  simp only [DDFOutputStream.WriteFixed32, DDFOutputStream.Write, uint8_and_255,
    Nat.mul_zero, Nat.mul_one]

theorem WriteFixed64_eq {κ σ : Type} (S : DDFOutputStream κ σ) (w : σ) (v : Nat) :
    S.WriteFixed64 v w = S.m_SaveFunction S.m_Context
      [(v >>> (8 * 0)) &&& 0xFF, (v >>> (8 * 1)) &&& 0xFF, (v >>> (8 * 2)) &&& 0xFF,
        (v >>> (8 * 3)) &&& 0xFF, (v >>> (8 * 4)) &&& 0xFF, (v >>> (8 * 5)) &&& 0xFF,
        (v >>> (8 * 6)) &&& 0xFF, (v >>> (8 * 7)) &&& 0xFF] 8 w := by
  simp only [DDFOutputStream.WriteFixed64, DDFOutputStream.Write, uint8_and_255,
    Nat.mul_zero, Nat.mul_one]

theorem fixed32_sum (v : Nat) (hv : v < 2 ^ 32) :
    ((v >>> (8 * 0)) &&& 0xFF) + ((v >>> (8 * 1)) &&& 0xFF) * 2 ^ 8
      + ((v >>> (8 * 2)) &&& 0xFF) * 2 ^ 16 + ((v >>> (8 * 3)) &&& 0xFF) * 2 ^ 24 = v := by
  simp only [and_255_eq_mod, Nat.shiftRight_eq_div_pow]
  norm_num at hv ⊢
  omega

theorem fixed64_sum (v : Nat) (hv : v < 2 ^ 64) :
    ((v >>> (8 * 0)) &&& 0xFF) + ((v >>> (8 * 1)) &&& 0xFF) * 2 ^ 8
      + ((v >>> (8 * 2)) &&& 0xFF) * 2 ^ 16 + ((v >>> (8 * 3)) &&& 0xFF) * 2 ^ 24
      + ((v >>> (8 * 4)) &&& 0xFF) * 2 ^ 32 + ((v >>> (8 * 5)) &&& 0xFF) * 2 ^ 40
      + ((v >>> (8 * 6)) &&& 0xFF) * 2 ^ 48 + ((v >>> (8 * 7)) &&& 0xFF) * 2 ^ 56 = v := by
  simp only [and_255_eq_mod, Nat.shiftRight_eq_div_pow]
  norm_num at hv ⊢
  omega

/-- C14: for every 32-bit float with bit pattern `p`, `WriteFloat` makes the call that
`WriteFixed32(p)` makes, with the 4 little-endian bytes of `p`, which reassemble to `p`; for
every 64-bit double with bit pattern `q`, `WriteDouble` makes the call that `WriteFixed64(q)`
makes, with the 8 little-endian bytes of `q`, which reassemble to `q`.  A float is given by
the pattern of its storage, so every pattern is covered, NaNs and infinities included. -/
theorem WriteFloat_bit_pattern (p q : Nat) (hp : p < 2 ^ 32) (hq : q < 2 ^ 64) :
    (∀ (κ σ : Type) (S : DDFOutputStream κ σ) (w : σ),
      S.WriteFloat p w = S.WriteFixed32 p w ∧
      S.WriteFloat p w = S.m_SaveFunction S.m_Context
        [(p >>> (8 * 0)) &&& 0xFF, (p >>> (8 * 1)) &&& 0xFF, (p >>> (8 * 2)) &&& 0xFF,
          (p >>> (8 * 3)) &&& 0xFF] 4 w) ∧
    ((p >>> (8 * 0)) &&& 0xFF) + ((p >>> (8 * 1)) &&& 0xFF) * 2 ^ 8
      + ((p >>> (8 * 2)) &&& 0xFF) * 2 ^ 16 + ((p >>> (8 * 3)) &&& 0xFF) * 2 ^ 24 = p ∧
    (∀ (κ σ : Type) (S : DDFOutputStream κ σ) (w : σ),
      S.WriteDouble q w = S.WriteFixed64 q w ∧
      S.WriteDouble q w = S.m_SaveFunction S.m_Context
        [(q >>> (8 * 0)) &&& 0xFF, (q >>> (8 * 1)) &&& 0xFF, (q >>> (8 * 2)) &&& 0xFF,
          (q >>> (8 * 3)) &&& 0xFF, (q >>> (8 * 4)) &&& 0xFF, (q >>> (8 * 5)) &&& 0xFF,
          (q >>> (8 * 6)) &&& 0xFF, (q >>> (8 * 7)) &&& 0xFF] 8 w) ∧
    ((q >>> (8 * 0)) &&& 0xFF) + ((q >>> (8 * 1)) &&& 0xFF) * 2 ^ 8
      + ((q >>> (8 * 2)) &&& 0xFF) * 2 ^ 16 + ((q >>> (8 * 3)) &&& 0xFF) * 2 ^ 24
      + ((q >>> (8 * 4)) &&& 0xFF) * 2 ^ 32 + ((q >>> (8 * 5)) &&& 0xFF) * 2 ^ 40
      + ((q >>> (8 * 6)) &&& 0xFF) * 2 ^ 48 + ((q >>> (8 * 7)) &&& 0xFF) * 2 ^ 56 = q := by
  refine ⟨?_, fixed32_sum p hp, ?_, fixed64_sum q hq⟩
  · intro κ σ S w
    exact ⟨rfl, WriteFixed32_eq S w p⟩
  · intro κ σ S w
    exact ⟨rfl, WriteFixed64_eq S w q⟩

theorem WriteFloat_bit_pattern_witness :
    (1065353216 : Nat) < 2 ^ 32 ∧ (4607182418800017408 : Nat) < 2 ^ 64 ∧
    (∀ (κ σ : Type) (S : DDFOutputStream κ σ) (w : σ),
      S.WriteFloat 1065353216 w
        = S.m_SaveFunction S.m_Context [0x00, 0x00, 0x80, 0x3F] 4 w) ∧
    (∀ (κ σ : Type) (S : DDFOutputStream κ σ) (w : σ),
      S.WriteDouble 4607182418800017408 w
        = S.m_SaveFunction S.m_Context [0x00, 0x00, 0x00, 0x00, 0x00, 0x00, 0xF0, 0x3F] 8 w) :=
  ⟨by decide, by decide,
    fun κ σ S w => ((WriteFloat_bit_pattern 1065353216 4607182418800017408
      (by decide) (by decide)).1 κ σ S w).2,
    fun κ σ S w => ((WriteFloat_bit_pattern 1065353216 4607182418800017408
      (by decide) (by decide)).2.2.1 κ σ S w).2⟩

/-! ## Bounds of the scratch arrays -/

/-- The loop followed by the last store runs out of the array when the array has no room for
`varintBytes v` from index `size` on. -/
theorem varintFinish_loop_none (v : Nat) : ∀ (bytes : List Nat) (size : Nat),
    bytes.length < size + (varintBytes v).length →
    varintFinish (varintLoop v bytes size) = none := by
  induction v using Nat.strong_induction_on with
  | _ v ih =>
    intro bytes size h
    by_cases hv : 127 < v
    · rw [varintBytes_big hv, List.length_cons] at h
      rw [varintLoop]
      simp only [hv, gt_iff_lt, if_true]
      by_cases hs : size < bytes.length
      · rw [if_pos hs]
        apply ih (v >>> 7) (by rw [Nat.shiftRight_eq_div_pow]; omega)
        have hd : v >>> 7 = v / 128 := by rw [Nat.shiftRight_eq_div_pow]
        rw [hd, List.length_set]
        omega
      · rw [if_neg hs]
        rfl
    · rw [varintBytes_small (by omega), List.length_singleton] at h
      rw [varintLoop]
      simp only [hv, gt_iff_lt, if_false, varintFinish]
      rw [if_neg (by omega)]

theorem varintScratch_none (capacity v : Nat) (h : capacity < (varintBytes v).length) :
    varintScratch capacity v = none := by
  rw [varintScratch_eq]
  apply varintFinish_loop_none
  simpa using h

/-- C16: the scratch arrays never overflow.  With the element stores bounds-checked, for every
unsigned 64-bit value the stores of `WriteVarInt64` all fall inside its 10-element array and
the size handed to the save callback is between 1 and 10; for every unsigned 32-bit value
the stores of `WriteVarInt32` all fall inside its 5-element array and the size is between 1
and 5.  The check is not idle: a value of 36 bits would run out of the 5-element array. -/
theorem varint_scratch_in_bounds (v : Nat) (hv : v < 2 ^ 64) :
    (∃ (bytes : List Nat) (size : Nat), varintScratch 10 v = some (bytes, size) ∧
      bytes.length = 10 ∧ 1 ≤ size ∧ size ≤ 10 ∧
      (∀ (κ σ : Type) (S : DDFOutputStream κ σ) (w : σ),
        S.WriteVarInt64 v w = some (S.m_SaveFunction S.m_Context bytes size w))) ∧
    (v < 2 ^ 32 →
      ∃ (bytes : List Nat) (size : Nat), varintScratch 5 v = some (bytes, size) ∧
        bytes.length = 5 ∧ 1 ≤ size ∧ size ≤ 5 ∧
        (∀ (κ σ : Type) (S : DDFOutputStream κ σ) (w : σ),
          S.WriteVarInt32 v w = some (S.m_SaveFunction S.m_Context bytes size w))) ∧
    varintScratch 5 34359738368 = none := by
  refine ⟨⟨_, _, varintScratch_some 10 v (varintBytes_length_le_ten hv), ?_,
    varintBytes_length_pos v, varintBytes_length_le_ten hv, ?_⟩, ?_, ?_⟩
  · have := varintBytes_length_le_ten hv
    simp only [List.length_append, List.length_replicate]
    omega
  · intro κ σ S w
    exact WriteVarInt64_eq S w hv
  · intro hv32
    refine ⟨_, _, varintScratch_some 5 v (varintBytes_length_le_five hv32), ?_,
      varintBytes_length_pos v, varintBytes_length_le_five hv32, ?_⟩
    · have := varintBytes_length_le_five hv32
      simp only [List.length_append, List.length_replicate]
      omega
    · intro κ σ S w
      exact WriteVarInt32_eq S w hv32
  · apply varintScratch_none
    have := varintBytes_length_ge 5 34359738368 (by decide)
    omega

theorem varint_scratch_in_bounds_witness :
    (4294967295 : Nat) < 2 ^ 64 ∧ (4294967295 : Nat) < 2 ^ 32 ∧
    ∃ (bytes : List Nat) (size : Nat), varintScratch 5 4294967295 = some (bytes, size) ∧
      bytes.length = 5 ∧ 1 ≤ size ∧ size ≤ 5 ∧
      (∀ (κ σ : Type) (S : DDFOutputStream κ σ) (w : σ),
        S.WriteVarInt32 4294967295 w = some (S.m_SaveFunction S.m_Context bytes size w)) :=
  ⟨by decide, by decide,
    (varint_scratch_in_bounds 4294967295 (by decide)).2.1 (by decide)⟩

/-! ## Tags of large field numbers -/

/-- C19: `WriteTag` checks no range and computes the tag in 32-bit arithmetic.  For every field
number `n` and wire type `t`, `WriteTag(n, t)` is `WriteVarInt32` of
`((n * 8) mod 2^32) | t`, so `WriteTag(n, t)` and `WriteTag(n mod 2^29, t)` are the same call;
the field numbers 1 and `2^29 + 1` give the same tag. -/
theorem WriteTag_wraps (n t : Nat) (ht : t < 2 ^ 32) :
    (∀ (κ σ : Type) (S : DDFOutputStream κ σ) (w : σ),
      S.WriteTag n t w = S.WriteVarInt32 (((n * 8) % 2 ^ 32) ||| t) w) ∧
    (∃ (bytes : List Nat) (size : Nat),
      varintScratch 5 (((n * 8) % 2 ^ 32) ||| t) = some (bytes, size) ∧
      ∀ (κ σ : Type) (S : DDFOutputStream κ σ) (w : σ),
        S.WriteTag n t w = some (S.m_SaveFunction S.m_Context bytes size w)) ∧
    (∀ (κ σ : Type) (S : DDFOutputStream κ σ) (w : σ),
      S.WriteTag n t w = S.WriteTag (n % 2 ^ 29) t w) ∧
    (∀ (κ σ : Type) (S : DDFOutputStream κ σ) (w : σ),
      S.WriteTag 1 t w = S.WriteTag (2 ^ 29 + 1) t w) := by
  have hor : ∀ m : Nat, ((m * 8) % 2 ^ 32) ||| t < 2 ^ 32 := fun m =>
    Nat.or_lt_two_pow (Nat.mod_lt _ (by norm_num)) ht
  have htag : ∀ m : Nat, uint32 (uint32 (m <<< 3) ||| t) = ((m * 8) % 2 ^ 32) ||| t := by
    intro m
    have e : uint32 (m <<< 3) = (m * 8) % 2 ^ 32 := by
      rw [uint32, Nat.shiftLeft_eq]
    rw [e, uint32]
    exact Nat.mod_eq_of_lt (hor m)
  have hw : ∀ (m : Nat) (κ σ : Type) (S : DDFOutputStream κ σ) (w : σ),
      S.WriteTag m t w = S.WriteVarInt32 (((m * 8) % 2 ^ 32) ||| t) w := by
    intro m κ σ S w
    simp only [DDFOutputStream.WriteTag, htag]
  have hmod : ∀ m : Nat, (m % 2 ^ 29 * 8) % 2 ^ 32 = (m * 8) % 2 ^ 32 := by
    intro m
    norm_num
    omega
  refine ⟨hw n, ⟨_, _, varintScratch_some 5 _ (varintBytes_length_le_five (hor n)), ?_⟩, ?_, ?_⟩
  · intro κ σ S w
    rw [hw, WriteVarInt32_eq S w (hor n)]
  · intro κ σ S w
    rw [hw n, hw (n % 2 ^ 29), hmod]
  · intro κ σ S w
    have e : (2 ^ 29 + 1) * 8 % 2 ^ 32 = 1 * 8 % 2 ^ 32 := by decide
    rw [hw 1, hw (2 ^ 29 + 1), e]

theorem WriteTag_wraps_witness :
    (0 : Nat) < 2 ^ 32 ∧
    (∀ (κ σ : Type) (S : DDFOutputStream κ σ) (w : σ),
      S.WriteTag 536870913 0 w = S.WriteTag (536870913 % 2 ^ 29) 0 w) ∧
    ∃ (bytes : List Nat) (size : Nat),
      varintScratch 5 (((536870913 * 8) % 2 ^ 32) ||| 0) = some (bytes, size) ∧
      ∀ (κ σ : Type) (S : DDFOutputStream κ σ) (w : σ),
        S.WriteTag 536870913 0 w = some (S.m_SaveFunction S.m_Context bytes size w) :=
  ⟨by decide, (WriteTag_wraps 536870913 0 (by decide)).2.2.1,
    (WriteTag_wraps 536870913 0 (by decide)).2.1⟩

/-! ## Varints are self-delimiting -/

theorem varintBytes_append_cancel (a b : Nat) (r1 r2 : List Nat)
    (h : varintBytes a ++ r1 = varintBytes b ++ r2) : a = b ∧ r1 = r2 := by
  have h1 := decode_varint_bytes a r1
  rw [h, decode_varint_bytes b r2] at h1
  simp only [Option.some.injEq, Prod.mk.injEq] at h1
  exact ⟨h1.1.symm, h1.2.symm⟩

/-- C18: the varint encoding is free of proper prefixes, hence injective.  For unsigned 64-bit
values `a` and `b`, if the bytes `WriteVarInt64(a)` hands over are a prefix of the bytes
`WriteVarInt64(b)` hands over then `a = b`; and if the bytes of `a` followed by `r1` are the
bytes of `b` followed by `r2` then `a = b` and `r1 = r2`, so back-to-back varints split in
one way only.  The same holds for `WriteVarInt32` over 32-bit values. -/
theorem varint_self_delimiting (a b : Nat) (ha : a < 2 ^ 64) (hb : b < 2 ^ 64) :
    (∃ (bytesA : List Nat) (sizeA : Nat) (bytesB : List Nat) (sizeB : Nat),
      varintScratch 10 a = some (bytesA, sizeA) ∧ varintScratch 10 b = some (bytesB, sizeB) ∧
      (∀ (κ σ : Type) (S : DDFOutputStream κ σ) (w : σ),
        S.WriteVarInt64 a w = some (S.m_SaveFunction S.m_Context bytesA sizeA w) ∧
        S.WriteVarInt64 b w = some (S.m_SaveFunction S.m_Context bytesB sizeB w)) ∧
      (sinkBytes bytesA sizeA <+: sinkBytes bytesB sizeB → a = b) ∧
      (∀ r1 r2 : List Nat,
        sinkBytes bytesA sizeA ++ r1 = sinkBytes bytesB sizeB ++ r2 → a = b ∧ r1 = r2)) ∧
    (a < 2 ^ 32 → b < 2 ^ 32 →
      ∃ (bytesA : List Nat) (sizeA : Nat) (bytesB : List Nat) (sizeB : Nat),
        varintScratch 5 a = some (bytesA, sizeA) ∧ varintScratch 5 b = some (bytesB, sizeB) ∧
        (∀ (κ σ : Type) (S : DDFOutputStream κ σ) (w : σ),
          S.WriteVarInt32 a w = some (S.m_SaveFunction S.m_Context bytesA sizeA w) ∧
          S.WriteVarInt32 b w = some (S.m_SaveFunction S.m_Context bytesB sizeB w)) ∧
        (sinkBytes bytesA sizeA <+: sinkBytes bytesB sizeB → a = b) ∧
        (∀ r1 r2 : List Nat,
          sinkBytes bytesA sizeA ++ r1 = sinkBytes bytesB sizeB ++ r2 → a = b ∧ r1 = r2)) := by
  constructor
  · refine ⟨_, _, _, _, varintScratch_some 10 a (varintBytes_length_le_ten ha),
      varintScratch_some 10 b (varintBytes_length_le_ten hb), ?_, ?_, ?_⟩
    · intro κ σ S w
      exact ⟨WriteVarInt64_eq S w ha, WriteVarInt64_eq S w hb⟩
    · rw [sinkBytes_append_length, sinkBytes_append_length]
      rintro ⟨t, ht⟩
      exact (varintBytes_append_cancel a b t [] (by simpa using ht)).1
    · intro r1 r2
      rw [sinkBytes_append_length, sinkBytes_append_length]
      exact varintBytes_append_cancel a b r1 r2
  · intro ha32 hb32
    refine ⟨_, _, _, _, varintScratch_some 5 a (varintBytes_length_le_five ha32),
      varintScratch_some 5 b (varintBytes_length_le_five hb32), ?_, ?_, ?_⟩
    · intro κ σ S w
      exact ⟨WriteVarInt32_eq S w ha32, WriteVarInt32_eq S w hb32⟩
    · rw [sinkBytes_append_length, sinkBytes_append_length]
      rintro ⟨t, ht⟩
      exact (varintBytes_append_cancel a b t [] (by simpa using ht)).1
    · intro r1 r2
      rw [sinkBytes_append_length, sinkBytes_append_length]
      exact varintBytes_append_cancel a b r1 r2

theorem varint_self_delimiting_witness :
    (300 : Nat) < 2 ^ 64 ∧ (300 : Nat) < 2 ^ 32 ∧
    (∃ (bytesA : List Nat) (sizeA : Nat) (bytesB : List Nat) (sizeB : Nat),
      varintScratch 10 300 = some (bytesA, sizeA) ∧ varintScratch 10 300 = some (bytesB, sizeB) ∧
      sinkBytes bytesA sizeA <+: sinkBytes bytesB sizeB ∧ (300 : Nat) = 300) ∧
    (∃ (bytesA : List Nat) (sizeA : Nat) (bytesB : List Nat) (sizeB : Nat),
      varintScratch 5 300 = some (bytesA, sizeA) ∧ varintScratch 5 300 = some (bytesB, sizeB) ∧
      (∀ r1 r2 : List Nat,
        sinkBytes bytesA sizeA ++ r1 = sinkBytes bytesB sizeB ++ r2 → r1 = r2)) := by
  refine ⟨by decide, by decide, ?_, ?_⟩
  · obtain ⟨bytesA, sizeA, bytesB, sizeB, hA, hB, -, hpre, -⟩ :=
      (varint_self_delimiting 300 300 (by decide) (by decide)).1
    have hAB : sinkBytes bytesA sizeA <+: sinkBytes bytesB sizeB := by
      rw [hA] at hB
      simp only [Option.some.injEq, Prod.mk.injEq] at hB
      rw [hB.1, hB.2]
    exact ⟨bytesA, sizeA, bytesB, sizeB, hA, hB, hAB, hpre hAB⟩
  · obtain ⟨bytesA, sizeA, bytesB, sizeB, hA, hB, -, -, hsplit⟩ :=
      (varint_self_delimiting 300 300 (by decide) (by decide)).2 (by decide) (by decide)
    exact ⟨bytesA, sizeA, bytesB, sizeB, hA, hB, fun r1 r2 h => (hsplit r1 r2 h).2⟩

/-! ## One call of the save callback per operation -/

theorem int_to_uint32_lt (v : Int) : int_to_uint32 v < 2 ^ 32 := by
  have h0 := Int.emod_nonneg v (show (2 ^ 32 : Int) ≠ 0 by norm_num)
  have h1 := Int.emod_lt_of_pos v (show (0 : Int) < 2 ^ 32 by norm_num)
  rw [int_to_uint32]
  norm_num at *
  omega

theorem int_to_uint64_lt (v : Int) : int_to_uint64 v < 2 ^ 64 := by
  have h0 := Int.emod_nonneg v (show (2 ^ 64 : Int) ≠ 0 by norm_num)
  have h1 := Int.emod_lt_of_pos v (show (0 : Int) < 2 ^ 64 by norm_num)
  rw [int_to_uint64]
  norm_num at *
  omega

/-- A call of a method other than `WriteString` is one call of the save callback, with the
entry of `Call.writes`, and returns what the callback returns. -/
theorem call_single (c : Call) (hty : c.wellTyped) (hns : ∀ str, c ≠ Call.WriteString str) :
    ∃ (buf : List Nat) (len : Int), c.writes = [(buf, len)] ∧
      ∀ (κ σ : Type) (S : DDFOutputStream κ σ) (w : σ),
        S.call c w = some (S.m_SaveFunction S.m_Context buf len w) := by
  cases c with
  | Write buffer length => exact ⟨_, _, rfl, fun κ σ S w => rfl⟩
  | WriteTag number type =>
    refine ⟨_, _, rfl, fun κ σ S w => ?_⟩
    simp only [DDFOutputStream.call, DDFOutputStream.WriteTag]
    exact WriteVarInt32_eq S w (uint32_lt _)
  | WriteVarInt32SignExtended value =>
    by_cases h0 : value < 0
    · refine ⟨_, _, by rw [Call.writes, if_pos h0], fun κ σ S w => ?_⟩
      simp only [DDFOutputStream.call, DDFOutputStream.WriteVarInt32SignExtended, if_pos h0]
      exact WriteVarInt64_eq S w (int_to_uint64_lt _)
    · refine ⟨_, _, by rw [Call.writes, if_neg h0], fun κ σ S w => ?_⟩
      simp only [DDFOutputStream.call, DDFOutputStream.WriteVarInt32SignExtended, if_neg h0]
      exact WriteVarInt32_eq S w (int_to_uint32_lt _)
  | WriteVarInt32 value => exact ⟨_, _, rfl, fun κ σ S w => WriteVarInt32_eq S w hty⟩
  | WriteVarInt64 value => exact ⟨_, _, rfl, fun κ σ S w => WriteVarInt64_eq S w hty⟩
  | WriteFixed32 value =>
    exact ⟨_, _, rfl, fun κ σ S w => congrArg some (WriteFixed32_eq S w value)⟩
  | WriteFixed64 value =>
    exact ⟨_, _, rfl, fun κ σ S w => congrArg some (WriteFixed64_eq S w value)⟩
  | WriteFloat value =>
    exact ⟨_, _, rfl, fun κ σ S w => congrArg some (WriteFixed32_eq S w value)⟩
  | WriteDouble value =>
    exact ⟨_, _, rfl, fun κ σ S w => congrArg some (WriteFixed64_eq S w value)⟩
  | WriteInt32 value =>
    exact ⟨_, _, rfl, fun κ σ S w => WriteVarInt32_eq S w (int_to_uint32_lt _)⟩
  | WriteUInt32 value => exact ⟨_, _, rfl, fun κ σ S w => WriteVarInt32_eq S w hty⟩
  | WriteInt64 value =>
    exact ⟨_, _, rfl, fun κ σ S w => WriteVarInt64_eq S w (int_to_uint64_lt _)⟩
  | WriteUInt64 value => exact ⟨_, _, rfl, fun κ σ S w => WriteVarInt64_eq S w hty⟩
  | WriteString str => exact absurd rfl (hns str)

/-- A sink that accepts every call. -/
theorem logged_accepts {κ σ : Type} (S : DDFOutputStream κ σ)
    (hacc : ∀ (c : κ) (b : List Nat) (n : Int) (w : σ), (S.m_SaveFunction c b n w).1 = true) :
    ∀ (c : κ) (b : List Nat) (n : Int) (st : σ × List (List Nat × Int)),
      ((DDFOutputStream.logged S).m_SaveFunction c b n st).1 = true := by
  intro c b n st
  exact hacc c b n st.1

/-- A call on a sink that accepts every call returns success and leaves the destination that
the calls of `Call.writes` leave. -/
theorem call_accepting {κ σ : Type} (S : DDFOutputStream κ σ)
    (hacc : ∀ (c : κ) (b : List Nat) (n : Int) (w : σ), (S.m_SaveFunction c b n w).1 = true)
    (c : Call) (hty : c.wellTyped) (w : σ) :
    S.call c w = some (true, feed S c.writes w) := by
  by_cases hs : ∃ str, c = Call.WriteString str
  · obtain ⟨str, rfl⟩ := hs
    simp only [DDFOutputStream.call, Call.writes, feed, varintCall]
    rw [WriteString_eq, if_pos (hacc _ _ _ _)]
    congr 1
    exact Prod.ext (hacc _ _ _ _) rfl
  · obtain ⟨buf, len, hw, hc⟩ := call_single c hty (fun str h => hs ⟨str, h⟩)
    rw [hc, hw]
    simp only [feed]
    congr 1
    exact Prod.ext (hacc _ _ _ _) rfl

theorem feed_append {κ σ : Type} (S : DDFOutputStream κ σ) (a b : List (List Nat × Int)) :
    ∀ w : σ, feed S (a ++ b) w = feed S b (feed S a w) := by
  induction a with
  | nil => intro w; rfl
  | cons p ps ih =>
    intro w
    simp only [List.cons_append, feed]
    exact ih _

theorem run_accepting {κ σ : Type} (S : DDFOutputStream κ σ)
    (hacc : ∀ (c : κ) (b : List Nat) (n : Int) (w : σ), (S.m_SaveFunction c b n w).1 = true)
    (calls : List Call) : ∀ (w : σ), (∀ c ∈ calls, c.wellTyped) →
    run (S, w) calls = some (List.replicate calls.length true,
      (S, feed S (calls.flatMap Call.writes) w)) := by
  induction calls with
  | nil => intro w _; rfl
  | cons c cs ih =>
    intro w hty
    have hc := call_accepting S hacc c (hty c (List.mem_cons_self _ _)) w
    have hcs := ih (feed S c.writes w) (fun d hd => hty d (List.mem_cons_of_mem _ hd))
    simp only [run, step, hc, hcs, List.length_cons, List.replicate_succ, List.flatMap_cons,
      feed_append]

theorem feed_memorySink (L : List (List Nat × Int)) : ∀ r : List Nat,
    feed memorySink L r = r ++ L.flatMap (fun p => sinkBytes p.1 p.2) := by
  induction L with
  | nil => intro r; simp [feed]
  | cons p ps ih =>
    intro r
    simp only [feed, List.flatMap_cons]
    rw [ih]
    simp [memorySink, DDFOutputStream.new]

theorem feed_logged {κ σ : Type} (S : DDFOutputStream κ σ) (L : List (List Nat × Int)) :
    ∀ (w : σ) (l : List (List Nat × Int)),
      feed (DDFOutputStream.logged S) L (w, l) = (feed S L w, l ++ L) := by
  induction L with
  | nil => intro w l; simp [feed]
  | cons p ps ih =>
    intro w l
    simp only [feed, logged_save]
    rw [ih]
    simp

theorem memorySink_accepts : ∀ (c : Unit) (b : List Nat) (n : Int) (w : List Nat),
    (memorySink.m_SaveFunction c b n w).1 = true := fun _ _ _ _ => rfl

theorem Call.emitted_eq (c : Call) (hty : c.wellTyped) :
    c.emitted = c.writes.flatMap (fun p => sinkBytes p.1 p.2) := by
  rw [Call.emitted, call_accepting memorySink memorySink_accepts c hty, feed_memorySink]
  simp

theorem Call.sinkCalls_eq (c : Call) (hty : c.wellTyped) : c.sinkCalls = c.writes := by
  rw [Call.sinkCalls, call_accepting _ (logged_accepts memorySink memorySink_accepts) c hty,
    feed_logged]
  simp

/-- Every well-typed call returns, on every sink. -/
theorem call_total {κ σ : Type} (S : DDFOutputStream κ σ) (c : Call) (hty : c.wellTyped)
    (w : σ) : ∃ r : Bool × σ, S.call c w = some r := by
  by_cases hs : ∃ str, c = Call.WriteString str
  · obtain ⟨str, rfl⟩ := hs
    exact ⟨_, WriteString_eq S str w⟩
  · obtain ⟨buf, len, -, hc⟩ := call_single c hty (fun str h => hs ⟨str, h⟩)
    exact ⟨_, hc κ σ S w⟩

theorem run_total {κ σ : Type} (S : DDFOutputStream κ σ) (calls : List Call) :
    ∀ (w : σ), (∀ c ∈ calls, c.wellTyped) →
    ∃ (oks : List Bool) (w2 : σ), run (S, w) calls = some (oks, (S, w2)) ∧
      oks.length = calls.length := by
  induction calls with
  | nil => intro w _; exact ⟨[], w, rfl, rfl⟩
  | cons c cs ih =>
    intro w hty
    obtain ⟨r, hr⟩ := call_total S c (hty c (List.mem_cons_self _ _)) w
    obtain ⟨oks, w2, h2, hl⟩ := ih r.2 (fun d hd => hty d (List.mem_cons_of_mem _ hd))
    refine ⟨r.1 :: oks, w2, ?_, by simp [hl]⟩
    simp only [run, step, hr, h2]

/-! ## Order of the writes -/

theorem flatMap_emitted (calls : List Call) (hty : ∀ c ∈ calls, c.wellTyped) :
    calls.flatMap Call.emitted
      = (calls.flatMap Call.writes).flatMap (fun p => sinkBytes p.1 p.2) := by
  induction calls with
  | nil => rfl
  | cons c cs ih =>
    simp only [List.flatMap_cons, List.flatMap_append]
    rw [ih (fun d hd => hty d (List.mem_cons_of_mem _ hd)),
      Call.emitted_eq c (hty c (List.mem_cons_self _ _))]

theorem flatMap_sinkCalls (calls : List Call) (hty : ∀ c ∈ calls, c.wellTyped) :
    calls.flatMap Call.sinkCalls = calls.flatMap Call.writes := by
  induction calls with
  | nil => rfl
  | cons c cs ih =>
    simp only [List.flatMap_cons]
    rw [ih (fun d hd => hty d (List.mem_cons_of_mem _ hd)),
      Call.sinkCalls_eq c (hty c (List.mem_cons_self _ _))]

/-- C15: for any finite sequence of well-typed calls made on one stream over a sink that
accepts every call, each call returns success and the bytes received by the sink are the
concatenation, in call order, of the bytes each call emits on its own; the calls of the save
callback are the concatenation of the calls each method makes on its own, whatever the sink
held before; and on every sink the stream object at the end has the save function and the
context it had at the start. -/
theorem run_in_call_order (calls : List Call) (hty : ∀ c ∈ calls, c.wellTyped) :
    (∀ c ∈ calls, memorySink.call c [] = some (true, c.emitted) ∧
      ∃ received : List Nat, (DDFOutputStream.logged memorySink).call c ([], [])
        = some (true, (received, c.sinkCalls))) ∧
    (∀ r : List Nat, run (memorySink, r) calls =
      some (List.replicate calls.length true,
        (memorySink, r ++ calls.flatMap Call.emitted))) ∧
    (∀ (κ σ : Type) (S : DDFOutputStream κ σ),
      (∀ (c : κ) (b : List Nat) (n : Int) (w : σ), (S.m_SaveFunction c b n w).1 = true) →
      ∀ (w : σ) (l : List (List Nat × Int)), ∃ w2 : σ,
        run (S, w) calls = some (List.replicate calls.length true, (S, w2)) ∧
        run (DDFOutputStream.logged S, (w, l)) calls =
          some (List.replicate calls.length true,
            (DDFOutputStream.logged S, (w2, l ++ calls.flatMap Call.sinkCalls)))) ∧
    (∀ (κ σ : Type) (S : DDFOutputStream κ σ) (w : σ),
      ∃ (oks : List Bool) (S2 : DDFOutputStream κ σ) (w2 : σ),
        run (S, w) calls = some (oks, (S2, w2)) ∧ oks.length = calls.length ∧
        S2.m_SaveFunction = S.m_SaveFunction ∧ S2.m_Context = S.m_Context) := by
  have hem := flatMap_emitted calls hty
  have hsc := flatMap_sinkCalls calls hty
  refine ⟨?_, ?_, ?_, ?_⟩
  · intro c hc
    constructor
    · rw [call_accepting memorySink memorySink_accepts c (hty c hc), Call.emitted_eq c (hty c hc),
        feed_memorySink]
      simp
    · rw [call_accepting _ (logged_accepts memorySink memorySink_accepts) c (hty c hc),
        feed_logged, Call.sinkCalls_eq c (hty c hc)]
      exact ⟨feed memorySink c.writes [], by simp⟩
  · intro r
    rw [run_accepting memorySink memorySink_accepts calls r hty, feed_memorySink, hem]
  · intro κ σ S hacc w l
    refine ⟨feed S (calls.flatMap Call.writes) w, run_accepting S hacc calls w hty, ?_⟩
    rw [run_accepting _ (logged_accepts S hacc) calls (w, l) hty, feed_logged, hsc]
  · intro κ σ S w
    obtain ⟨oks, w2, h, hl⟩ := run_total S calls w hty
    exact ⟨oks, S, w2, h, hl, rfl, rfl⟩

theorem run_in_call_order_witness :
    (∀ c ∈ [Call.WriteTag 1 0, Call.WriteVarInt32 300, Call.WriteString [0x61, 0x62]],
      c.wellTyped) ∧
    (∀ (c : Unit) (b : List Nat) (n : Int) (w : List Nat),
      (memorySink.m_SaveFunction c b n w).1 = true) ∧
    run (memorySink, [])
        [Call.WriteTag 1 0, Call.WriteVarInt32 300, Call.WriteString [0x61, 0x62]] =
      some (List.replicate
          [Call.WriteTag 1 0, Call.WriteVarInt32 300, Call.WriteString [0x61, 0x62]].length true,
        (memorySink, [] ++ [Call.WriteTag 1 0, Call.WriteVarInt32 300,
          Call.WriteString [0x61, 0x62]].flatMap Call.emitted)) ∧
    ∃ w2 : List Nat,
      run (memorySink, [])
          [Call.WriteTag 1 0, Call.WriteVarInt32 300, Call.WriteString [0x61, 0x62]] =
        some (List.replicate
          [Call.WriteTag 1 0, Call.WriteVarInt32 300, Call.WriteString [0x61, 0x62]].length true,
          (memorySink, w2)) ∧
      run (DDFOutputStream.logged memorySink, ([], []))
          [Call.WriteTag 1 0, Call.WriteVarInt32 300, Call.WriteString [0x61, 0x62]] =
        some (List.replicate
          [Call.WriteTag 1 0, Call.WriteVarInt32 300, Call.WriteString [0x61, 0x62]].length true,
          (DDFOutputStream.logged memorySink, (w2, [] ++ [Call.WriteTag 1 0,
            Call.WriteVarInt32 300, Call.WriteString [0x61, 0x62]].flatMap Call.sinkCalls))) :=
  ⟨by decide, fun _ _ _ _ => rfl,
    (run_in_call_order _ (by decide)).2.1 [],
    (run_in_call_order _ (by decide)).2.2.1 Unit (List Nat) memorySink
      (fun _ _ _ _ => rfl) [] []⟩

/-! ## Number of calls of the save callback -/

/-- C17: every write operation other than `WriteString` (`Write`, `WriteTag`, `WriteVarInt32`,
`WriteVarInt64`, `WriteVarInt32SignExtended`, `WriteFixed32`, `WriteFixed64`, `WriteFloat`,
`WriteDouble`, `WriteInt32`, `WriteUInt32`, `WriteInt64`, `WriteUInt64`) makes exactly one
call of the save callback, whose span is everything the operation emits, and returns exactly
what that call returns.  `WriteString` makes one call for the length and, only when that call
reported success, a second call for the payload, also for the empty string, where the
second call has length 0. -/
theorem one_sink_call (c : Call) (hty : c.wellTyped) (hns : ∀ s, c ≠ Call.WriteString s)
    (str : List Nat) :
    (∃ (buf : List Nat) (len : Int), c.sinkCalls = [(buf, len)] ∧
      c.emitted = sinkBytes buf len ∧
      ∀ (κ σ : Type) (S : DDFOutputStream κ σ) (w : σ) (l : List (List Nat × Int)),
        S.call c w = some (S.m_SaveFunction S.m_Context buf len w) ∧
        (DDFOutputStream.logged S).call c (w, l) =
          some ((S.m_SaveFunction S.m_Context buf len w).1,
            ((S.m_SaveFunction S.m_Context buf len w).2, l ++ [(buf, len)])) ∧
        ∀ r : Bool × σ, S.call c w = some r →
          (r.1 = false ↔ (S.m_SaveFunction S.m_Context buf len w).1 = false)) ∧
    (∃ (buf : List Nat) (len : Nat), varintScratch 5 (uint32 (strlen str)) = some (buf, len) ∧
      ∀ (κ σ : Type) (S : DDFOutputStream κ σ) (w : σ) (l : List (List Nat × Int)),
        ((S.m_SaveFunction S.m_Context buf len w).1 = true →
          S.WriteString str w = some
            (S.m_SaveFunction S.m_Context str (uint32_to_int (uint32 (strlen str)))
              (S.m_SaveFunction S.m_Context buf len w).2) ∧
          (DDFOutputStream.logged S).WriteString str (w, l) = some
            ((S.m_SaveFunction S.m_Context str (uint32_to_int (uint32 (strlen str)))
              (S.m_SaveFunction S.m_Context buf len w).2).1,
             ((S.m_SaveFunction S.m_Context str (uint32_to_int (uint32 (strlen str)))
              (S.m_SaveFunction S.m_Context buf len w).2).2,
              l ++ [(buf, (len : Int)), (str, uint32_to_int (uint32 (strlen str)))]))) ∧
        ((S.m_SaveFunction S.m_Context buf len w).1 = false →
          S.WriteString str w = some (false, (S.m_SaveFunction S.m_Context buf len w).2) ∧
          (DDFOutputStream.logged S).WriteString str (w, l) = some
            (false, ((S.m_SaveFunction S.m_Context buf len w).2, l ++ [(buf, (len : Int))])))) ∧
    (∀ (κ σ : Type) (S : DDFOutputStream κ σ) (w : σ) (l : List (List Nat × Int)),
      (S.m_SaveFunction S.m_Context [0, 0, 0, 0, 0] 1 w).1 = true →
      ∃ r : Bool × σ, (DDFOutputStream.logged S).WriteString [] (w, l) =
        some (r.1, (r.2, l ++ [([0, 0, 0, 0, 0], 1), ([], 0)]))) := by
  refine ⟨?_, ?_, ?_⟩
  · obtain ⟨buf, len, hw, hc⟩ := call_single c hty hns
    refine ⟨buf, len, ?_, ?_, ?_⟩
    · rw [Call.sinkCalls_eq c hty, hw]
    · rw [Call.emitted_eq c hty, hw]
      simp
    · intro κ σ S w l
      refine ⟨hc κ σ S w, ?_, ?_⟩
      · rw [hc, logged_save]
      · intro r hr
        rw [hc] at hr
        simp only [Option.some.injEq] at hr
        rw [← hr]
  · refine ⟨_, _, varintScratch_some 5 _ (varintBytes_length_le_five (uint32_lt (strlen str))),
      ?_⟩
    intro κ σ S w l
    constructor
    · intro h1
      rw [WriteString_eq, WriteString_eq, logged_save]
      simp only [h1, if_true, logged_save]
      simp
    · intro h1
      rw [WriteString_eq, WriteString_eq, logged_save]
      simp [h1]
  · intro κ σ S w l h1
    have e0 : uint32 (strlen []) = 0 := by decide
    have e1 : uint32_to_int 0 = 0 := by decide
    have e2 : varintBytes 0 = [0] := varintBytes_small (by decide)
    rw [WriteString_eq, e0, e1, e2, logged_save]
    have e3 : ([0] : List Nat) ++ List.replicate (5 - ([0] : List Nat).length) 0
        = [0, 0, 0, 0, 0] := by decide
    have e4 : ((([0] : List Nat).length : Nat) : Int) = 1 := by decide
    rw [e3, e4]
    simp only [h1, if_true, logged_save]
    exact ⟨S.m_SaveFunction S.m_Context [] 0 (S.m_SaveFunction S.m_Context [0, 0, 0, 0, 0] 1 w).2,
      by simp⟩

theorem one_sink_call_witness :
    (Call.WriteFixed32 1).wellTyped ∧ (∀ s, Call.WriteFixed32 1 ≠ Call.WriteString s) ∧
    (∃ (buf : List Nat) (len : Int), (Call.WriteFixed32 1).sinkCalls = [(buf, len)] ∧
      (Call.WriteFixed32 1).emitted = sinkBytes buf len ∧
      ∀ (κ σ : Type) (S : DDFOutputStream κ σ) (w : σ),
        S.call (Call.WriteFixed32 1) w = some (S.m_SaveFunction S.m_Context buf len w)) ∧
    (limitedSink.m_SaveFunction limitedSink.m_Context [0, 0, 0, 0, 0] 1 (1, [])).1 = true ∧
    ∃ r : Bool × (Nat × List Nat),
      (DDFOutputStream.logged limitedSink).WriteString [] ((1, []), []) =
        some (r.1, (r.2, [] ++ [([0, 0, 0, 0, 0], 1), ([], 0)])) := by
  have h := one_sink_call (Call.WriteFixed32 1) (by decide) (fun s hs => Call.noConfusion hs)
    [0x61, 0x62]
  obtain ⟨⟨buf, len, h1, h2, h3⟩, -, hempty⟩ := h
  exact ⟨by decide, fun s hs => Call.noConfusion hs,
    ⟨buf, len, h1, h2, fun κ σ S w => (h3 κ σ S w []).1⟩, rfl, hempty _ _ limitedSink (1, []) [] rfl⟩

end DDF
